import Mathlib

/-!
Verification of the transaction-processing core of a demonstration banking
backend (QRIS issuance/redemption, validation pipeline, PIN gate, ledger
recording, persistence retry wrapper, QRIS token codec).

Monetary values (`Numeric(15, 2)` columns, Python `Decimal`) are modelled as
exact rationals `ℚ`; timestamps as integers `ℤ` (the unit is irrelevant, only
the order matters); Python dictionaries keyed by strings as total functions
with default value.
-/

namespace DemoBank

/-! ### Transaction validation pipeline
Embedded from `app/services/transaction_validation_service.py`. -/

/-- Configured limits, from class `TransactionLimits`
(`MIN_TRANSACTION_AMOUNT = Decimal("0.00")`, the comment next to it says
Rp 1,000 but the configured value is 0). -/
def MIN_TRANSACTION_AMOUNT : ℚ := 0

/-- Configured single-transaction ceiling, `Decimal("1000000000000.00")`. -/
def MAX_TRANSACTION_AMOUNT : ℚ := 1000000000000

/-- Configured daily cap, `Decimal("2000000000000.00")`. -/
def DAILY_TRANSACTION_LIMIT : ℚ := 2000000000000

/-- Account fields read by the validation pipeline. -/
structure AccountState where
  balance : ℚ
  status : String
deriving DecidableEq, Repr

/-- Reason codes of the five failure branches of
`TransactionValidationService.validate_transaction`, in source order. -/
inductive ValidationFailure where
  | insufficientBalance
  | amountBelowMinimum
  | amountExceedsLimit
  | dailyLimitExceeded
  | accountInactive
deriving DecidableEq, Repr

/-- Embeds `TransactionValidationService.validate_transaction`. The five checks
appear in the order they occur in the source: balance first (line 51), then
minimum amount (line 105), maximum amount (line 123), daily limit (line 145),
and account status last (line 166); each raises (short-circuits) on failure.
`daily_total` stands for the value computed by `_get_daily_transaction_total`.
Returns `none` when all validations pass. -/
def validate_transaction (account : AccountState) (amount daily_total : ℚ) :
    Option ValidationFailure :=
  if amount > account.balance then some .insufficientBalance
  else if amount < MIN_TRANSACTION_AMOUNT then some .amountBelowMinimum
  else if amount > MAX_TRANSACTION_AMOUNT then some .amountExceedsLimit
  else if daily_total + amount > DAILY_TRANSACTION_LIMIT then some .dailyLimitExceeded
  else if account.status ≠ "active" then some .accountInactive
  else none

/-! ### Ledger recording
Embedded from `app/services/transaction_recording_service.py` and the
success path of the `qris-consume` endpoint in `app/api/v1/transactions.py`. -/

/-- Fields of a `TransactionHistory` row that the recording operations
compute (identifier and denormalized metadata fields are omitted; they do not
enter any balance invariant). -/
structure HistoryRow where
  transaction_type : String
  amount : ℚ
  balance_before : ℚ
  balance_after : ℚ
  status : String
deriving DecidableEq, Repr

/-- Embeds `TransactionRecordingService.record_successful_transaction`:
`balance_before = account.balance`, `balance_after = balance_before - amount`
(debit), row status `"success"` (source lines 36-49). -/
def record_successful_transaction (balance amount : ℚ) (transaction_type : String) :
    HistoryRow :=
  { transaction_type := transaction_type
    amount := amount
    balance_before := balance
    balance_after := balance - amount
    status := "success" }

/-- Embeds `TransactionRecordingService.record_failed_transaction`: both
`balance_before` and `balance_after` are set to `account.balance`
("No balance change for failed transaction", source lines 108-110), row
status `"failed"`. -/
def record_failed_transaction (balance amount : ℚ) (transaction_type : String) :
    HistoryRow :=
  { transaction_type := transaction_type
    amount := amount
    balance_before := balance
    balance_after := balance
    status := "failed" }

/-- Embeds the balance mutation and history insert of the success path of
`create_retail_transaction_consume` (`app/api/v1/transactions.py` lines
473-498): capture `balance_before`, debit the account, record the row with
status `"success"` and type `"qris_consume"`. Returns the new account balance
together with the persisted row. -/
def consume_success_step (balance amount : ℚ) : ℚ × HistoryRow :=
  let balance_before := balance
  let new_balance := balance - amount
  (new_balance,
    { transaction_type := "qris_consume"
      amount := amount
      balance_before := balance_before
      balance_after := new_balance
      status := "success" })

/-! ### QRIS issuance / redemption state machine
Embedded from `app/services/qris_service.py`. -/

/-- Fields of a persisted `QRISTransaction` row that the redemption logic
reads or writes. -/
structure QRISRecord where
  qris_id : String
  customer_id : String
  amount : ℚ
  status : String
  expired_at : ℤ
deriving DecidableEq, Repr

/-- Failure outcomes of `validate_and_consume_qris` after a record was found
(HTTP 400 responses in the source). -/
inductive RedeemError where
  | invalidState (st : String)
  | expired
deriving DecidableEq, Repr

/-- Embeds `QRISService.generate_qris` (source lines 35-61): a fresh record is
persisted with `status = "ACTIVE"` and `expired_at = now + 15 minutes`
(`timedelta(minutes=15)`; time is counted in minutes here). -/
def generate_qris (qris_id customer_id : String) (amount : ℚ) (now : ℤ) :
    QRISRecord :=
  { qris_id := qris_id
    customer_id := customer_id
    amount := amount
    status := "ACTIVE"
    expired_at := now + 15 }

/-- Embeds the state checks of `QRISService.validate_and_consume_qris` on a
record found in the database (source lines 159-223): status must be
`"ACTIVE"` (line 160), else fail; if `now > expired_at` set status to
`"EXPIRED"`, persist, and fail (lines 176-192); the same-customer check is
commented out in the source (lines 195-198) so `redeeming_customer` is
unused; the `status = "CONSUMED"` assignment is commented out in the source
(lines 202-204), so a successful redemption persists the record unchanged.
Returns the outcome together with the persisted record. -/
def validate_and_consume_qris (rec : QRISRecord) (now : ℤ)
    (redeeming_customer : String) : Except RedeemError Unit × QRISRecord :=
  if rec.status ≠ "ACTIVE" then (.error (.invalidState rec.status), rec)
  else if rec.expired_at < now then (.error .expired, { rec with status := "EXPIRED" })
  else (.ok (), rec)

/-! ### PIN authorization gate
Embedded from `app/services/pin_validation_service.py`. -/

/-- Outcome of `PINValidationService.validate_pin_or_fail`: HTTP 422 when no
PIN is configured, HTTP 400 carrying the attempt number and its message on a
wrong PIN, or success. -/
inductive PinResult where
  | pinNotSet
  | invalidPin (attempt : Nat) (message : String)
  | ok
deriving DecidableEq, Repr

/-- Embeds `PINValidationService.validate_pin_or_fail` (source lines 96-164).
`counts` models the class-level `_failed_attempts` dictionary (absent keys
read as 0 via `dict.get(key, 0)`); `key` is the string
`customer_id ++ ":" ++ transaction_type`; `has_pin` models
`user.hashed_pin` being set and `pin_matches` the `verify_pin` outcome.
On a wrong PIN the counter is updated to `counts[key] % 3 + 1` (line 118) and
the new value is reported in the error message (line 162). -/
def validate_pin_or_fail (has_pin pin_matches : Bool) (counts : String → Nat)
    (key : String) : PinResult × (String → Nat) :=
  if ¬ has_pin then (.pinNotSet, counts)
  else if ¬ pin_matches then
    let attempts := counts key % 3 + 1
    let counts' : String → Nat := fun k => if k = key then attempts else counts k
    (.invalidPin attempts ("The provided PIN is incorrect. Attempt " ++ toString attempts),
      counts')
  else (.ok, counts)

/-! ### Persistence retry wrapper
Embedded from `retry_db_operation` in `app/database_utils.py`. -/

/-- Outcome of one invocation of the wrapped operation: success, an exception
of one of the retried classes (`OperationalError`, `DatabaseError`,
`InvalidRequestError` — the transient category), or any other exception
(permanent). -/
inductive DbOutcome (α : Type) where
  | ok (a : α)
  | transient (msg : String)
  | permanent (msg : String)
deriving DecidableEq, Repr

/-- Error as re-raised to the caller of `retry_db_operation`. -/
inductive DbError where
  | transient (msg : String)
  | permanent (msg : String)
deriving DecidableEq, Repr

/-- Observable result of running `retry_db_operation`: the returned value or
re-raised error, the number of invocations of the wrapped operation, and the
list of back-off sleep durations in order. -/
structure RunResult (α : Type) where
  result : Except DbError α
  calls : Nat
  sleeps : List ℚ
deriving Repr

/-- Embeds the body of the `for attempt in range(max_retries + 1)` loop of
`retry_db_operation` starting at index `attempt` with `remaining` further
indices available after the current one (so the loop as a whole starts with
`attempt = 0`, `remaining = max_retries`). An exception outside the three
retried classes propagates out of the `try` immediately (it is not caught).
A caught transient exception when `attempt == max_retries` (i.e. `remaining
= 0`) is re-raised (source line 88); otherwise the wrapper sleeps
`delay * backoff_factor ^ attempt` (line 91) and retries. -/
def retry_db_operation_from {α : Type} (op : Nat → DbOutcome α) (delay backoff_factor : ℚ)
    (attempt : Nat) : (remaining : Nat) → RunResult α
  | 0 =>
    match op attempt with
    | .ok a => ⟨.ok a, 1, []⟩
    | .permanent m => ⟨.error (.permanent m), 1, []⟩
    | .transient m => ⟨.error (.transient m), 1, []⟩
  | r + 1 =>
    match op attempt with
    | .ok a => ⟨.ok a, 1, []⟩
    | .permanent m => ⟨.error (.permanent m), 1, []⟩
    | .transient m =>
      let rest := retry_db_operation_from op delay backoff_factor (attempt + 1) r
      ⟨rest.result, rest.calls + 1, delay * backoff_factor ^ attempt :: rest.sleeps⟩

/-- Embeds `retry_db_operation(operation, max_retries, delay, backoff_factor)`
(`app/database_utils.py` lines 11-97; the trailing re-raise at lines 95-97 is
unreachable because the loop always returns or raises). `op k` is the outcome
of the `k`-th invocation of `operation` (0-based). -/
def retry_db_operation {α : Type} (op : Nat → DbOutcome α) (max_retries : Nat)
    (delay backoff_factor : ℚ) : RunResult α :=
  retry_db_operation_from op delay backoff_factor 0 max_retries

/-! ### QRIS token codec
Embedded from `app/utils/qris.py`:
`encode_qris_payload(payload) = base64.urlsafe_b64encode(json.dumps(payload).encode("utf-8")).decode("utf-8")`
and `decode_qris_payload(qris_code) = json.loads(base64.urlsafe_b64decode(qris_code.encode("utf-8")).decode("utf-8"))`
(any decoding failure is mapped to an HTTP 400, modelled as `none`).

Text is modelled as lists of Unicode code points (`List Nat`), byte strings as
lists of bytes (`List Nat`). The layers below model, in order: decimal digit
printing, hexadecimal escape digits, the URL-safe base64 alphabet of
`base64.urlsafe_b64encode/urlsafe_b64decode`, UTF-8, and the default
behaviour of `json.dumps` (`ensure_ascii=True`, separators `", "` and `": "`)
and `json.loads` (strict mode). JSON numbers are modelled as integers (the
payloads at issue carry integral amounts; float formatting is outside the
embedding, and the number reader rejects fraction/exponent forms rather than
producing a float). -/

/-- Little-endian decimal digits of `n` (empty for 0); the first argument is
fuel that `natDigits` instantiates with `n` itself, which always suffices. -/
def natDigitsAux : Nat → Nat → List Nat
  | 0, _ => []
  | fuel + 1, n => if n = 0 then [] else n % 10 :: natDigitsAux fuel (n / 10)

/-- Little-endian decimal digit values of `n`. -/
def natDigits (n : Nat) : List Nat :=
  natDigitsAux n n

/-- ASCII codes of the usual decimal rendering of `n` (as `repr`/`%d` in the
source language). -/
def serializeNat (n : Nat) : List Nat :=
  if n = 0 then [48] else (natDigits n).reverse.map (· + 48)

/-- ASCII codes of the decimal rendering of an integer (code 45 is the minus
sign). -/
def serializeInt : Int → List Nat
  | .ofNat m => serializeNat m
  | .negSucc m => 45 :: serializeNat (m + 1)

/-- Decimal digit test on ASCII codes. -/
def isDigitCode (c : Nat) : Bool :=
  47 < c && c < 58

/-- Value of a big-endian list of ASCII digit codes. -/
def digitsVal (ds : List Nat) : Nat :=
  ds.foldl (fun acc c => acc * 10 + (c - 48)) 0

/-- Guard matching `json.loads` number handling: a fraction or exponent marker
after the integer digits would make the literal a float, which is outside
this embedding, so the reader refuses it. -/
def numTailOk (rest : List Nat) : Bool :=
  match rest with
  | [] => true
  | c :: _ => !(c == 46 || c == 101 || c == 69)

/-- Reads a decimal natural number prefix as `json.loads` does for the
integer part: at least one digit, no leading zero on a multi-digit literal. -/
def parseNat (s : List Nat) : Option (Nat × List Nat) :=
  match s.takeWhile isDigitCode with
  | [] => none
  | d :: tl =>
    let rest := s.dropWhile isDigitCode
    if numTailOk rest && (tl.isEmpty || !(d == 48)) then some (digitsVal (d :: tl), rest)
    else none

/-- ASCII code of a lowercase hexadecimal digit, matching the `\uXXXX`
escapes emitted by `json.dumps`. -/
def hexDigit (d : Nat) : Nat :=
  if d < 10 then 48 + d else 87 + d

/-- Four lowercase hexadecimal ASCII digit codes of `n mod 65536`. -/
def hex4 (n : Nat) : List Nat :=
  [hexDigit (n / 4096 % 16), hexDigit (n / 256 % 16), hexDigit (n / 16 % 16), hexDigit (n % 16)]

/-- Value of one hexadecimal ASCII digit code, either case (as accepted by
`json.loads`). -/
def hexVal (c : Nat) : Option Nat :=
  if 48 ≤ c ∧ c ≤ 57 then some (c - 48)
  else if 97 ≤ c ∧ c ≤ 102 then some (c - 87)
  else if 65 ≤ c ∧ c ≤ 70 then some (c - 55)
  else none

/-- ASCII code of entry `n` of the URL-safe base64 alphabet
`A-Z a-z 0-9 - _` used by `base64.urlsafe_b64encode`. -/
def b64Index (n : Nat) : Nat :=
  if n < 26 then 65 + n
  else if n < 52 then 97 + (n - 26)
  else if n < 62 then 48 + (n - 52)
  else if n = 62 then 45
  else 95

/-- Value of one URL-safe base64 alphabet character. -/
def b64Code (c : Nat) : Option Nat :=
  if 65 ≤ c ∧ c ≤ 90 then some (c - 65)
  else if 97 ≤ c ∧ c ≤ 122 then some (c - 97 + 26)
  else if 48 ≤ c ∧ c ≤ 57 then some (c - 48 + 52)
  else if c = 45 then some 62
  else if c = 95 then some 63
  else none

/-- Character test for the output alphabet of `urlsafe_b64encode` (alphabet
characters plus the padding character `=`, code 61). -/
def isB64UrlChar (c : Nat) : Bool :=
  (b64Code c).isSome || c == 61

/-- Embeds `base64.urlsafe_b64encode` on byte lists: groups of three bytes
become four alphabet characters; a trailing group of one or two bytes is
padded with `=`. -/
def urlsafe_b64encode : List Nat → List Nat
  | [] => []
  | [b1] => [b64Index (b1 / 4), b64Index (b1 % 4 * 16), 61, 61]
  | [b1, b2] => [b64Index (b1 / 4), b64Index (b1 % 4 * 16 + b2 / 16), b64Index (b2 % 16 * 4), 61]
  | b1 :: b2 :: b3 :: rest =>
    b64Index (b1 / 4) :: b64Index (b1 % 4 * 16 + b2 / 16) ::
      b64Index (b2 % 16 * 4 + b3 / 64) :: b64Index (b3 % 64) :: urlsafe_b64encode rest

/-- Embeds `base64.urlsafe_b64decode` on the alphabet it emits (the stdlib
delegates to the binascii base64 reader; on every output of the encoder the
two agree, which is all the source exercises). -/
def urlsafe_b64decode : List Nat → Option (List Nat)
  | [] => some []
  | c1 :: c2 :: c3 :: c4 :: rest => do
    let v1 ← b64Code c1
    let v2 ← b64Code c2
    if c3 = 61 then
      if c4 = 61 ∧ rest = [] then pure [v1 * 4 + v2 / 16] else none
    else do
      let v3 ← b64Code c3
      if c4 = 61 then
        if rest = [] then pure [v1 * 4 + v2 / 16, v2 % 16 * 16 + v3 / 4] else none
      else do
        let v4 ← b64Code c4
        let tail ← urlsafe_b64decode rest
        pure ((v1 * 4 + v2 / 16) :: (v2 % 16 * 16 + v3 / 4) :: (v3 % 4 * 64 + v4) :: tail)
  | _ => none

/-- UTF-8 bytes of one code point. -/
def utf8EncodeChar (c : Nat) : List Nat :=
  if c < 128 then [c]
  else if c < 2048 then [192 + c / 64, 128 + c % 64]
  else if c < 65536 then [224 + c / 4096, 128 + c / 64 % 64, 128 + c % 64]
  else [240 + c / 262144, 128 + c / 4096 % 64, 128 + c / 64 % 64, 128 + c % 64]

/-- Embeds `str.encode("utf-8")`. -/
def utf8Encode (l : List Nat) : List Nat :=
  (l.map utf8EncodeChar).flatten

/-- Decodes one UTF-8 sequence from a first byte `b` and the remaining bytes
`r`: ASCII bytes map to themselves, well-formed multi-byte sequences (no
overlong forms, no surrogates, at most U+10FFFF) are combined, anything else
is a decoding error. -/
def utf8DecodeStep (b : Nat) (r : List Nat) : Option (Nat × List Nat) :=
  if b < 128 then some (b, r)
  else if 194 ≤ b ∧ b ≤ 223 then
    match r with
    | b2 :: r2 =>
      if 128 ≤ b2 ∧ b2 ≤ 191 then some ((b - 192) * 64 + (b2 - 128), r2)
      else none
    | [] => none
  else if 224 ≤ b ∧ b ≤ 239 then
    match r with
    | b2 :: b3 :: r2 =>
      if (128 ≤ b2 ∧ b2 ≤ 191) ∧ (128 ≤ b3 ∧ b3 ≤ 191) then
        let c := (b - 224) * 4096 + (b2 - 128) * 64 + (b3 - 128)
        if 2048 ≤ c ∧ ¬(55296 ≤ c ∧ c ≤ 57343) then some (c, r2) else none
      else none
    | _ => none
  else if 240 ≤ b ∧ b ≤ 244 then
    match r with
    | b2 :: b3 :: b4 :: r2 =>
      if (128 ≤ b2 ∧ b2 ≤ 191) ∧ (128 ≤ b3 ∧ b3 ≤ 191) ∧ (128 ≤ b4 ∧ b4 ≤ 191) then
        let c := (b - 240) * 262144 + (b2 - 128) * 4096 + (b3 - 128) * 64 + (b4 - 128)
        if 65536 ≤ c ∧ c ≤ 1114111 then some (c, r2) else none
      else none
    | _ => none
  else none

/-- Decoding loop for UTF-8; each step consumes at least one byte, so the
fuel that `utf8Decode` instantiates with the byte count always suffices. -/
def utf8DecodeAux : Nat → List Nat → Option (List Nat)
  | _, [] => some []
  | 0, _ :: _ => none
  | fuel + 1, b :: r =>
    match utf8DecodeStep b r with
    | some (c, r2) => (utf8DecodeAux fuel r2).map (fun l => c :: l)
    | none => none

/-- Embeds `bytes.decode("utf-8")`. -/
def utf8Decode (l : List Nat) : Option (List Nat) :=
  utf8DecodeAux l.length l

/-- JSON values as `json.dumps`/`json.loads` exchange them, with numbers
restricted to integers (see the section comment) and strings as lists of
code points. Objects keep the key order of the Python dictionary. -/
inductive Json where
  | null
  | bool (b : Bool)
  | num (n : Int)
  | str (cps : List Nat)
  | arr (elems : List Json)
  | obj (members : List (List Nat × Json))

/-- Escape of one string character as emitted by `json.dumps` with its
default `ensure_ascii=True`: two-character short escapes for the quote,
backslash and the five named control characters, printable ASCII verbatim,
and `\uXXXX` (a surrogate pair for code points beyond U+FFFF) for
everything else. -/
def escapeChar (c : Nat) : List Nat :=
  if c = 34 then [92, 34]
  else if c = 92 then [92, 92]
  else if c = 8 then [92, 98]
  else if c = 9 then [92, 116]
  else if c = 10 then [92, 110]
  else if c = 12 then [92, 102]
  else if c = 13 then [92, 114]
  else if 32 ≤ c ∧ c ≤ 126 then [c]
  else if c < 65536 then 92 :: 117 :: hex4 c
  else 92 :: 117 :: hex4 (55296 + (c - 65536) / 1024) ++ 92 :: 117 :: hex4 (56320 + (c - 65536) % 1024)

/-- Serialized form of a JSON string: quote, escaped characters, quote. -/
def serializeString (cps : List Nat) : List Nat :=
  34 :: (cps.map escapeChar).flatten ++ [34]

mutual

/-- Embeds `json.dumps` with its defaults (`ensure_ascii=True`, separators
`", "` and `": "`) as a list of ASCII codes. -/
def serializeVal : Json → List Nat
  | .null => [110, 117, 108, 108]
  | .bool true => [116, 114, 117, 101]
  | .bool false => [102, 97, 108, 115, 101]
  | .num n => serializeInt n
  | .str cps => serializeString cps
  | .arr [] => [91, 93]
  | .arr (v :: vs) => 91 :: serializeVal v ++ serializeArrTail vs
  | .obj [] => [123, 125]
  | .obj ((k, v) :: ms) =>
    123 :: serializeString k ++ 58 :: 32 :: serializeVal v ++ serializeObjTail ms

/-- Remaining array elements after the first, each preceded by the `", "`
separator, closed by `]`. -/
def serializeArrTail : List Json → List Nat
  | [] => [93]
  | v :: vs => 44 :: 32 :: serializeVal v ++ serializeArrTail vs

/-- Remaining object members after the first, each preceded by the `", "`
separator, closed by the closing brace. -/
def serializeObjTail : List (List Nat × Json) → List Nat
  | [] => [125]
  | (k, v) :: ms => 44 :: 32 :: serializeString k ++ 58 :: 32 :: serializeVal v ++ serializeObjTail ms

end

/-- Whitespace skipped by `json.loads` between tokens (space, tab, newline,
carriage return). -/
def isWsCode (c : Nat) : Bool :=
  c == 32 || c == 9 || c == 10 || c == 13

/-- Drops inter-token whitespace. -/
def skipWs (s : List Nat) : List Nat :=
  s.dropWhile isWsCode

/-- Reads the body of a JSON string after the opening quote, as the scanner
of `json.loads` does in strict mode: plain characters up to the closing
quote (unescaped control characters refused), short escapes, and `\uXXXX`
escapes where a high-surrogate escape immediately followed by a
low-surrogate escape combines into one code point and a lone surrogate
escape is kept as it stands. -/
def parseStringBodyAux : Nat → List Nat → Option (List Nat × List Nat)
  | 0, _ => none
  | fuel + 1, s =>
    match s with
    | [] => none
    | c :: r =>
      if c = 34 then some ([], r)
      else if c = 92 then
        match r with
        | [] => none
        | e :: r2 =>
          if e = 34 then (parseStringBodyAux fuel r2).map (fun p => (34 :: p.1, p.2))
          else if e = 92 then (parseStringBodyAux fuel r2).map (fun p => (92 :: p.1, p.2))
          else if e = 47 then (parseStringBodyAux fuel r2).map (fun p => (47 :: p.1, p.2))
          else if e = 98 then (parseStringBodyAux fuel r2).map (fun p => (8 :: p.1, p.2))
          else if e = 116 then (parseStringBodyAux fuel r2).map (fun p => (9 :: p.1, p.2))
          else if e = 110 then (parseStringBodyAux fuel r2).map (fun p => (10 :: p.1, p.2))
          else if e = 102 then (parseStringBodyAux fuel r2).map (fun p => (12 :: p.1, p.2))
          else if e = 114 then (parseStringBodyAux fuel r2).map (fun p => (13 :: p.1, p.2))
          else if e = 117 then
            match r2 with
            | a :: b :: c2 :: d :: r3 =>
              match hexVal a, hexVal b, hexVal c2, hexVal d with
              | some va, some vb, some vc, some vd =>
                let h := ((va * 16 + vb) * 16 + vc) * 16 + vd
                if 55296 ≤ h ∧ h ≤ 56319 then
                  match r3 with
                  | 92 :: 117 :: a2 :: b2 :: c3 :: d2 :: r4 =>
                    match hexVal a2, hexVal b2, hexVal c3, hexVal d2 with
                    | some wa, some wb, some wc, some wd =>
                      let lo := ((wa * 16 + wb) * 16 + wc) * 16 + wd
                      if 56320 ≤ lo ∧ lo ≤ 57343 then
                        (parseStringBodyAux fuel r4).map
                          (fun p => ((65536 + (h - 55296) * 1024 + (lo - 56320)) :: p.1, p.2))
                      else
                        (parseStringBodyAux fuel (92 :: 117 :: a2 :: b2 :: c3 :: d2 :: r4)).map
                          (fun p => (h :: p.1, p.2))
                    | _, _, _, _ =>
                      (parseStringBodyAux fuel (92 :: 117 :: a2 :: b2 :: c3 :: d2 :: r4)).map
                        (fun p => (h :: p.1, p.2))
                  | _ => (parseStringBodyAux fuel r3).map (fun p => (h :: p.1, p.2))
                else (parseStringBodyAux fuel r3).map (fun p => (h :: p.1, p.2))
              | _, _, _, _ => none
            | _ => none
          else none
      else if c < 32 then none
      else (parseStringBodyAux fuel r).map (fun p => (c :: p.1, p.2))

/-- Reads a JSON string body with the fuel instantiated by the input length,
which always suffices because every produced character consumes at least one
input character. -/
def parseStringBody (s : List Nat) : Option (List Nat × List Nat) :=
  parseStringBodyAux s.length s

/-- Reads a JSON number as an integer (fraction/exponent forms are outside
the embedding, see the section comment). -/
def parseNumber (s : List Nat) : Option (Json × List Nat) :=
  match s with
  | [] => none
  | c :: r =>
    if c = 45 then (parseNat r).map (fun p => (.num (-(p.1 : Int)), p.2))
    else (parseNat s).map (fun p => (.num ((p.1 : Int)), p.2))

mutual

/-- Reads one JSON value, dispatching on the first non-whitespace character
as the scanner of `json.loads` does; `fuel` bounds the nesting recursion and
is instantiated by `json_loads` with the input length, which always
suffices. -/
def parseVal : Nat → List Nat → Option (Json × List Nat)
  | 0, _ => none
  | fuel + 1, s =>
    match skipWs s with
    | [] => none
    | c :: r =>
      if c = 34 then (parseStringBody r).map (fun p => (.str p.1, p.2))
      else if c = 91 then
        match skipWs r with
        | [] => none
        | d :: r2 =>
          if d = 93 then some (.arr [], r2)
          else (parseElems fuel (d :: r2)).map (fun p => (.arr p.1, p.2))
      else if c = 123 then
        match skipWs r with
        | [] => none
        | d :: r2 =>
          if d = 125 then some (.obj [], r2)
          else (parseMembers fuel (d :: r2)).map (fun p => (.obj p.1, p.2))
      else if c = 110 then
        match r with
        | 117 :: 108 :: 108 :: r2 => some (.null, r2)
        | _ => none
      else if c = 116 then
        match r with
        | 114 :: 117 :: 101 :: r2 => some (.bool true, r2)
        | _ => none
      else if c = 102 then
        match r with
        | 97 :: 108 :: 115 :: 101 :: r2 => some (.bool false, r2)
        | _ => none
      else parseNumber (c :: r)

/-- Reads the comma-separated elements of a non-empty array up to and
including the closing bracket. -/
def parseElems : Nat → List Nat → Option (List Json × List Nat)
  | 0, _ => none
  | fuel + 1, s => do
    let (v, r) ← parseVal fuel s
    match skipWs r with
    | 44 :: r2 => do
      let (vs, r3) ← parseElems fuel r2
      pure (v :: vs, r3)
    | 93 :: r2 => pure ([v], r2)
    | _ => none

/-- Reads the comma-separated members of a non-empty object up to and
including the closing brace. -/
def parseMembers : Nat → List Nat → Option (List (List Nat × Json) × List Nat)
  | 0, _ => none
  | fuel + 1, s =>
    match skipWs s with
    | 34 :: r => do
      let (k, r2) ← parseStringBody r
      match skipWs r2 with
      | 58 :: r3 => do
        let (v, r4) ← parseVal fuel r3
        match skipWs r4 with
        | 44 :: r5 => do
          let (ms, r6) ← parseMembers fuel r5
          pure ((k, v) :: ms, r6)
        | 125 :: r5 => pure ([(k, v)], r5)
        | _ => none
      | _ => none
    | _ => none

end

/-- Embeds `json.loads` on a text (one value, optionally surrounded by
whitespace, nothing after it). -/
def json_loads (s : List Nat) : Option Json :=
  match parseVal (s.length + 1) s with
  | some (v, r) => if skipWs r = [] then some v else none
  | none => none

/-- Embeds `encode_qris_payload` (`app/utils/qris.py` lines 6-9):
`json.dumps`, UTF-8 encode, URL-safe base64 encode. -/
def encode_qris_payload (p : Json) : List Nat :=
  urlsafe_b64encode (utf8Encode (serializeVal p))

/-- Embeds `decode_qris_payload` (`app/utils/qris.py` lines 12-18): URL-safe
base64 decode, UTF-8 decode, `json.loads`; every failure is reported as the
single HTTP 400 error, modelled as `none`. -/
def decode_qris_payload (s : List Nat) : Option Json :=
  match urlsafe_b64decode s with
  | none => none
  | some bytes =>
    match utf8Decode bytes with
    | none => none
    | some text => json_loads text

/-- Scalar-string well-formedness of a string value: each code point is a
Unicode scalar value (at most U+10FFFF and not a surrogate). -/
def wfStr (cps : List Nat) : Bool :=
  cps.all (fun c => c < 1114112 && !(55296 ≤ c && c ≤ 57343))

mutual

/-- Payload well-formedness: every string is made of Unicode scalar values
and the keys of every object are distinct (as they are in a Python
dictionary). -/
def wfV : Json → Bool
  | .null => true
  | .bool _ => true
  | .num _ => true
  | .str cps => wfStr cps
  | .arr vs => wfL vs
  | .obj ms => wfM ms

/-- Well-formedness of array elements. -/
def wfL : List Json → Bool
  | [] => true
  | v :: vs => wfV v && wfL vs

/-- Well-formedness of object members. -/
def wfM : List (List Nat × Json) → Bool
  | [] => true
  | (k, v) :: ms => wfStr k && wfV v && !(ms.any (fun m => m.1 == k)) && wfM ms

end

mutual

/-- Fuel needed by `parseVal` to read back a serialized value. -/
def fuelV : Json → Nat
  | .arr vs => fuelL vs + 1
  | .obj ms => fuelM ms + 1
  | _ => 1

/-- Fuel needed by `parseElems` on serialized array elements. -/
def fuelL : List Json → Nat
  | [] => 0
  | v :: vs => fuelV v + fuelL vs + 1

/-- Fuel needed by `parseMembers` on serialized object members. -/
def fuelM : List (List Nat × Json) → Nat
  | [] => 0
  | (_, v) :: ms => fuelV v + fuelM ms + 1

end

/-- Concrete issuance payload of `QRISService.generate_qris` (source lines
38-45): the object
`\x7b"qris_id": "7d9f-11", "merchant_name": "Warung X", "merchant_category":
"food", "amount": 50000, "currency": "IDR", "expired_at":
"2026-10-12T00:15:00"\x7d` with strings given by their code points. -/
def issuancePayload : Json :=
  .obj [([113, 114, 105, 115, 95, 105, 100], .str [55, 100, 57, 102, 45, 49, 49]),
    ([109, 101, 114, 99, 104, 97, 110, 116, 95, 110, 97, 109, 101],
      .str [87, 97, 114, 117, 110, 103, 32, 88]),
    ([109, 101, 114, 99, 104, 97, 110, 116, 95, 99, 97, 116, 101, 103, 111, 114, 121],
      .str [102, 111, 111, 100]),
    ([97, 109, 111, 117, 110, 116], .num 50000),
    ([99, 117, 114, 114, 101, 110, 99, 121], .str [73, 68, 82]),
    ([101, 120, 112, 105, 114, 101, 100, 95, 97, 116],
      .str [50, 48, 50, 54, 45, 49, 48, 45, 49, 50, 84, 48, 48, 58, 49, 53, 58, 48, 48])]

/-- Value of a little-endian digit list (proof-side counterpart of
`digitsVal`, which reads big-endian ASCII codes). -/
def digitsValLE (l : List Nat) : Nat :=
  l.foldr (fun d acc => d + 10 * acc) 0

/-- Continuations that may follow a serialized number: nothing, or a
character that is neither a digit nor a fraction/exponent marker (inside a
serialized document a number is always followed by `,`, `]`, the closing
brace, or nothing). -/
def numSafeP (rest : List Nat) : Prop :=
  ∀ c, rest.head? = some c → isDigitCode c = false ∧ c ≠ 46 ∧ c ≠ 101 ∧ c ≠ 69

end DemoBank

namespace DemoBank

/-! ## Claims C1-C8 (C9 and its codec development follow below) -/

/-- C1: the claim states that redeeming an ACTIVE, unexpired token sets the
persisted status to CONSUMED and that every later attempt fails. The code
evaluated at such a token shows otherwise: the first redemption succeeds but
leaves the persisted status `"ACTIVE"` (the `CONSUMED` assignment is commented
out in `qris_service.py` line 203), and a second redemption by a different
customer succeeds as well. -/
theorem qris_redeem_not_single_use :
    (validate_and_consume_qris (generate_qris "q1" "alice" 50000 0) 5 "bob").1 = .ok () ∧
    (validate_and_consume_qris (generate_qris "q1" "alice" 50000 0) 5 "bob").2.status = "ACTIVE" ∧
    ((validate_and_consume_qris
        (validate_and_consume_qris (generate_qris "q1" "alice" 50000 0) 5 "bob").2
        6 "carol").1 = .ok ()) := by
  exact ⟨rfl, rfl, rfl⟩

/-- C2 (counterexample): for an amount that is simultaneously below the
configured minimum and above the account balance (balance -10, amount -5,
with the configured minimum 0), the pipeline raises the insufficient-balance
failure, not the minimum-amount failure — the balance rule runs first in the
source, contradicting the claimed order. -/
theorem validation_order_counterexample :
    ((-5 : ℚ) < MIN_TRANSACTION_AMOUNT ∧
      (-5 : ℚ) > (AccountState.mk (-10) "active").balance) ∧
    validate_transaction (AccountState.mk (-10) "active") (-5) 0 =
      some .insufficientBalance ∧
    validate_transaction (AccountState.mk (-10) "active") (-5) 0 ≠
      some .amountBelowMinimum := by
  refine ⟨⟨by norm_num [MIN_TRANSACTION_AMOUNT], by norm_num⟩, ?_, ?_⟩ <;>
    simp [validate_transaction, MIN_TRANSACTION_AMOUNT] <;> norm_num

/-- C2 (amended): the pipeline evaluates its rules in the fixed source order
balance sufficiency, minimum amount, maximum amount, daily cumulative limit,
account status, short-circuiting on the first failing rule; in particular for
an amount both below the minimum and above the balance the failure raised is
the insufficient-balance violation. The conjunction of equivalences below
characterizes each outcome exactly by that order. -/
theorem validate_transaction_order (a : AccountState) (amount daily : ℚ) :
    (validate_transaction a amount daily = some .insufficientBalance ↔
      amount > a.balance) ∧
    (validate_transaction a amount daily = some .amountBelowMinimum ↔
      amount ≤ a.balance ∧ amount < MIN_TRANSACTION_AMOUNT) ∧
    (validate_transaction a amount daily = some .amountExceedsLimit ↔
      amount ≤ a.balance ∧ MIN_TRANSACTION_AMOUNT ≤ amount ∧
        amount > MAX_TRANSACTION_AMOUNT) ∧
    (validate_transaction a amount daily = some .dailyLimitExceeded ↔
      amount ≤ a.balance ∧ MIN_TRANSACTION_AMOUNT ≤ amount ∧
        amount ≤ MAX_TRANSACTION_AMOUNT ∧
        daily + amount > DAILY_TRANSACTION_LIMIT) ∧
    (validate_transaction a amount daily = some .accountInactive ↔
      amount ≤ a.balance ∧ MIN_TRANSACTION_AMOUNT ≤ amount ∧
        amount ≤ MAX_TRANSACTION_AMOUNT ∧
        daily + amount ≤ DAILY_TRANSACTION_LIMIT ∧ a.status ≠ "active") ∧
    (validate_transaction a amount daily = none ↔
      amount ≤ a.balance ∧ MIN_TRANSACTION_AMOUNT ≤ amount ∧
        amount ≤ MAX_TRANSACTION_AMOUNT ∧
        daily + amount ≤ DAILY_TRANSACTION_LIMIT ∧ a.status = "active") := by
  unfold validate_transaction
  split_ifs <;> simp_all

/-- C3 (counterexample): the row written by `record_failed_transaction` for a
failed debit attempt of amount 500 at balance 1000 has
`balance_after = balance_before = 1000`, which equals neither
`balance_before - amount` nor `balance_before + amount`, refuting the claimed
invariant for rows with status `"failed"`. -/
theorem history_invariant_counterexample :
    (record_failed_transaction 1000 500 "qris_consume").status = "failed" ∧
    (record_failed_transaction 1000 500 "qris_consume").balance_after ≠
      (record_failed_transaction 1000 500 "qris_consume").balance_before -
        (record_failed_transaction 1000 500 "qris_consume").amount ∧
    (record_failed_transaction 1000 500 "qris_consume").balance_after ≠
      (record_failed_transaction 1000 500 "qris_consume").balance_before +
        (record_failed_transaction 1000 500 "qris_consume").amount := by
  refine ⟨rfl, ?_, ?_⟩ <;> simp [record_failed_transaction] <;> norm_num

/-- C3 (amended): rows written by `record_successful_transaction` satisfy
`balance_after = balance_before - amount` (debit direction), while rows
written by `record_failed_transaction` record the attempted amount but leave
`balance_after = balance_before` (no balance change on failure). -/
theorem history_row_invariant (balance amount : ℚ) (ty : String) :
    ((record_successful_transaction balance amount ty).balance_after =
      (record_successful_transaction balance amount ty).balance_before -
        (record_successful_transaction balance amount ty).amount ∧
      (record_successful_transaction balance amount ty).status = "success") ∧
    ((record_failed_transaction balance amount ty).balance_after =
      (record_failed_transaction balance amount ty).balance_before ∧
      (record_failed_transaction balance amount ty).amount = amount ∧
      (record_failed_transaction balance amount ty).status = "failed") := by
  exact ⟨⟨rfl, rfl⟩, rfl, rfl, rfl⟩

/-- C4: for every successful debit of amount `a` on an account with balance
`b` (success path of the `qris-consume` endpoint), the resulting account
balance is exactly `b - a`, and the persisted history row has
`balance_before = b`, `balance_after = b - a`, status `"success"` and type
`"qris_consume"`. -/
theorem consume_debit_conservation (b a : ℚ) :
    (consume_success_step b a).1 = b - a ∧
    (consume_success_step b a).2.balance_before = b ∧
    (consume_success_step b a).2.balance_after = b - a ∧
    (consume_success_step b a).2.status = "success" ∧
    (consume_success_step b a).2.transaction_type = "qris_consume" := by
  exact ⟨rfl, rfl, rfl, rfl, rfl⟩

/-- C5: reading an ACTIVE record past its expiry during redemption persists
the `EXPIRED` status and fails with the expiry-specific error; issuance
always persists status `ACTIVE` (so a record sits ACTIVE past its expiry
until such a read, and in the embedded core the redemption read is the only
operation that writes `EXPIRED`). -/
theorem qris_lazy_expiry (rec : QRISRecord) (now : ℤ) (cust : String)
    (hact : rec.status = "ACTIVE") (hexp : rec.expired_at < now) :
    validate_and_consume_qris rec now cust =
      (.error .expired, { rec with status := "EXPIRED" }) ∧
    ∀ (qid c : String) (amt : ℚ) (t : ℤ), (generate_qris qid c amt t).status = "ACTIVE" := by
  constructor
  · simp [validate_and_consume_qris, hact, hexp]
  · intro qid c amt t
    rfl

/-- C5 witness: an ACTIVE record already past its expiry transitions to
EXPIRED and fails with the expiry error at a concrete input. -/
theorem qris_lazy_expiry_witness :
    validate_and_consume_qris (QRISRecord.mk "q1" "alice" 50000 "ACTIVE" 10) 11 "bob" =
      (.error .expired, QRISRecord.mk "q1" "alice" 50000 "EXPIRED" 10) := by
  exact (qris_lazy_expiry (QRISRecord.mk "q1" "alice" 50000 "ACTIVE" 10) 11 "bob"
    rfl (by decide)).1

/-- C6: starting from an absent counter for a fixed (customer, transaction
type) key, four consecutive failed PIN authorizations report attempt numbers
1, 2, 3 and then 1 again (the update rule is `count % 3 + 1`, cycling modulo
3), and each reported number is carried in the raised invalid-PIN error
message. -/
theorem pin_attempts_cycle (counts₀ : String → Nat) (key : String)
    (h0 : counts₀ key = 0) :
    (validate_pin_or_fail true false counts₀ key).1 =
      .invalidPin 1 "The provided PIN is incorrect. Attempt 1" ∧
    (validate_pin_or_fail true false (validate_pin_or_fail true false counts₀ key).2 key).1 =
      .invalidPin 2 "The provided PIN is incorrect. Attempt 2" ∧
    (validate_pin_or_fail true false
        (validate_pin_or_fail true false
          (validate_pin_or_fail true false counts₀ key).2 key).2 key).1 =
      .invalidPin 3 "The provided PIN is incorrect. Attempt 3" ∧
    (validate_pin_or_fail true false
        (validate_pin_or_fail true false
          (validate_pin_or_fail true false
            (validate_pin_or_fail true false counts₀ key).2 key).2 key).2 key).1 =
      .invalidPin 1 "The provided PIN is incorrect. Attempt 1" := by
  simp only [validate_pin_or_fail, h0]
  norm_num
  exact ⟨rfl, rfl, rfl, rfl⟩

/-- C6 witness: the cycle 1, 2, 3, 1 at the concrete key of customer `c1` and
transaction type `qris_consume`, starting from the empty dictionary. -/
theorem pin_attempts_cycle_witness :
    (validate_pin_or_fail true false (fun _ => 0) "c1:qris_consume").1 =
      .invalidPin 1 "The provided PIN is incorrect. Attempt 1" ∧
    (validate_pin_or_fail true false
        (validate_pin_or_fail true false (fun _ => 0) "c1:qris_consume").2
        "c1:qris_consume").1 =
      .invalidPin 2 "The provided PIN is incorrect. Attempt 2" ∧
    (validate_pin_or_fail true false
        (validate_pin_or_fail true false
          (validate_pin_or_fail true false (fun _ => 0) "c1:qris_consume").2
          "c1:qris_consume").2 "c1:qris_consume").1 =
      .invalidPin 3 "The provided PIN is incorrect. Attempt 3" ∧
    (validate_pin_or_fail true false
        (validate_pin_or_fail true false
          (validate_pin_or_fail true false
            (validate_pin_or_fail true false (fun _ => 0) "c1:qris_consume").2
            "c1:qris_consume").2 "c1:qris_consume").2 "c1:qris_consume").1 =
      .invalidPin 1 "The provided PIN is incorrect. Attempt 1" :=
  pin_attempts_cycle (fun _ => 0) "c1:qris_consume" rfl

/-- C7: an error outside the three retried exception classes raised by the
first invocation propagates to the caller immediately: exactly one call, no
back-off sleep, the original error surfaced; and whenever more than one call
happens, the first invocation raised a transient-class error (only transient
failures are retried). -/
theorem retry_permanent_immediate {α : Type} (op : Nat → DbOutcome α)
    (max_retries : Nat) (delay backoff : ℚ) (m : String)
    (hperm : op 0 = .permanent m) :
    retry_db_operation op max_retries delay backoff =
      ⟨.error (.permanent m), 1, []⟩ ∧
    ∀ (op' : Nat → DbOutcome α),
      (retry_db_operation op' max_retries delay backoff).calls ≥ 2 →
      ∃ m', op' 0 = .transient m' := by
  constructor
  · unfold retry_db_operation
    cases max_retries <;> simp [retry_db_operation_from, hperm]
  · intro op' hcalls
    unfold retry_db_operation at hcalls
    cases max_retries with
    | zero =>
      rcases h : op' 0 with a | m' | m' <;>
        simp [retry_db_operation_from, h] at hcalls
    | succ r =>
      rcases h : op' 0 with a | m' | m' <;>
        simp [retry_db_operation_from, h] at hcalls
      exact ⟨m', rfl⟩

/-- C7 witness: a permanent error on the first call with the default
configuration (3 retries, delay 1, factor 2) is surfaced immediately after a
single call and no sleeping, and a run that made two or more calls began with
a transient error. -/
theorem retry_permanent_immediate_witness :
    retry_db_operation (fun _ => DbOutcome.permanent (α := Unit) "boom") 3 1 2 =
      ⟨.error (.permanent "boom"), 1, []⟩ :=
  (retry_permanent_immediate (fun _ => DbOutcome.permanent (α := Unit) "boom")
    3 1 2 "boom" rfl).1

/-- Helper: value of one loop step when the current attempt raises a
transient-class error with further indices remaining. -/
theorem retry_from_step_transient {α : Type} (op : Nat → DbOutcome α) (d b : ℚ)
    (attempt r : Nat) (m : String) (h : op attempt = .transient m) :
    retry_db_operation_from op d b attempt (r + 1) =
      ⟨(retry_db_operation_from op d b (attempt + 1) r).result,
        (retry_db_operation_from op d b (attempt + 1) r).calls + 1,
        d * b ^ attempt :: (retry_db_operation_from op d b (attempt + 1) r).sleeps⟩ := by
  simp [retry_db_operation_from, h]

/-- Helper: every run of the retry loop makes at least one call. -/
theorem retry_from_calls_pos {α : Type} (op : Nat → DbOutcome α) (d b : ℚ) :
    ∀ (r attempt : Nat),
      1 ≤ (retry_db_operation_from op d b attempt r).calls := by
  intro r
  induction r with
  | zero => intro attempt; cases h : op attempt <;> simp [retry_db_operation_from, h]
  | succ r ih =>
    intro attempt
    cases h : op attempt <;> simp [retry_db_operation_from, h]

/-- Helper: the retry loop with `r` remaining indices makes at most `r + 1`
calls, sleeps once less than it calls, and the `i`-th sleep lasts
`d * b ^ (attempt + i)`. -/
theorem retry_from_calls_sleeps {α : Type} (op : Nat → DbOutcome α) (d b : ℚ) :
    ∀ (r attempt : Nat),
      (retry_db_operation_from op d b attempt r).calls ≤ r + 1 ∧
      (retry_db_operation_from op d b attempt r).sleeps.length =
        (retry_db_operation_from op d b attempt r).calls - 1 ∧
      ∀ (i : Nat) (hi : i < (retry_db_operation_from op d b attempt r).sleeps.length),
        (retry_db_operation_from op d b attempt r).sleeps.get ⟨i, hi⟩ =
          d * b ^ (attempt + i) := by
  intro r
  induction r with
  | zero =>
    intro attempt
    cases h : op attempt <;>
      simp [retry_db_operation_from, h]
  | succ r ih =>
    intro attempt
    cases h : op attempt with
    | ok a => simp [retry_db_operation_from, h]
    | permanent m => simp [retry_db_operation_from, h]
    | transient m =>
      obtain ⟨hcalls, hlen, hget⟩ := ih (attempt + 1)
      have hpos := retry_from_calls_pos op d b r (attempt + 1)
      rw [retry_from_step_transient op d b attempt r m h]
      dsimp only
      refine ⟨by omega, by simp only [List.length_cons]; omega, ?_⟩
      intro i hi
      cases i with
      | zero => simp
      | succ j =>
        simp only [List.length_cons] at hi
        have hj : j < (retry_db_operation_from op d b (attempt + 1) r).sleeps.length :=
          Nat.lt_of_succ_lt_succ hi
        have hrec := hget j hj
        have hxy : attempt + 1 + j = attempt + (j + 1) := by omega
        simp only [List.get_cons_succ]
        rw [hrec, hxy]

/-- Helper: when every invocation from `attempt` through `attempt + r` raises
a transient-class error, the loop re-raises the last one after exactly
`r + 1` calls. -/
theorem retry_from_all_transient {α : Type} (op : Nat → DbOutcome α) (d b : ℚ)
    (ms : Nat → String) :
    ∀ (r attempt : Nat),
      (∀ k, attempt ≤ k → k ≤ attempt + r → op k = .transient (ms k)) →
      (retry_db_operation_from op d b attempt r).result =
        .error (.transient (ms (attempt + r))) ∧
      (retry_db_operation_from op d b attempt r).calls = r + 1 := by
  intro r
  induction r with
  | zero =>
    intro attempt h
    have := h attempt le_rfl (by omega)
    simp [retry_db_operation_from, this]
  | succ r ih =>
    intro attempt h
    have hcur := h attempt le_rfl (by omega)
    have hrest := ih (attempt + 1) (fun k hk1 hk2 => h k (by omega) (by omega))
    rw [retry_from_step_transient op d b attempt r _ hcur]
    have hx : attempt + 1 + r = attempt + (r + 1) := by omega
    rw [hx] at hrest
    exact ⟨hrest.1, by rw [hrest.2]⟩

/-- C8: the retry wrapper invokes the wrapped operation at most
`max_retries + 1` times; it sleeps exactly once between consecutive attempts,
the `i`-th sleep lasting `delay * backoff_factor ^ i`; and when every attempt
fails with a transient-class error, the last error is re-raised to the caller
after exactly `max_retries + 1` calls — the wrapper always terminates with
either the operation result or that error. -/
theorem retry_bounded_exponential_backoff {α : Type} (op : Nat → DbOutcome α)
    (max_retries : Nat) (delay backoff : ℚ) (ms : Nat → String) :
    (retry_db_operation op max_retries delay backoff).calls ≤ max_retries + 1 ∧
    (retry_db_operation op max_retries delay backoff).sleeps.length =
      (retry_db_operation op max_retries delay backoff).calls - 1 ∧
    (∀ (i : Nat) (hi : i < (retry_db_operation op max_retries delay backoff).sleeps.length),
      (retry_db_operation op max_retries delay backoff).sleeps.get ⟨i, hi⟩ =
        delay * backoff ^ i) ∧
    ((∀ k, k ≤ max_retries → op k = .transient (ms k)) →
      (retry_db_operation op max_retries delay backoff).result =
        .error (.transient (ms max_retries)) ∧
      (retry_db_operation op max_retries delay backoff).calls = max_retries + 1) := by
  obtain ⟨h1, h2, h3⟩ := retry_from_calls_sleeps op delay backoff max_retries 0
  refine ⟨h1, h2, ?_, ?_⟩
  · intro i hi
    have := h3 i hi
    simpa using this
  · intro hall
    have := retry_from_all_transient op delay backoff ms max_retries 0
      (fun k hk1 hk2 => hall k (by omega))
    simpa using this

/-- C8 witness: with the default configuration (3 retries) and transient
errors on every attempt, the theorem yields that the last transient error is
re-raised after exactly 4 invocations. -/
theorem retry_bounded_exponential_backoff_witness :
    (retry_db_operation (fun _ => DbOutcome.transient (α := Unit) "deadlock") 3 1 2).result =
      .error (.transient "deadlock") ∧
    (retry_db_operation (fun _ => DbOutcome.transient (α := Unit) "deadlock") 3 1 2).calls =
      3 + 1 :=
  (retry_bounded_exponential_backoff (fun _ => DbOutcome.transient (α := Unit) "deadlock")
    3 1 2 (fun _ => "deadlock")).2.2.2 (fun _ _ => rfl)

/-- C10: the configured minimum transaction amount is 0.00, so the
minimum-amount failure branch can only fire for strictly negative amounts —
equivalently, it is unreachable for every amount ≥ 0 (despite the source
comment naming Rp 1,000 next to the constant). -/
theorem min_amount_branch_only_negative :
    MIN_TRANSACTION_AMOUNT = 0 ∧
    ∀ (a : AccountState) (amount daily : ℚ),
      validate_transaction a amount daily = some .amountBelowMinimum →
      amount < 0 := by
  refine ⟨rfl, ?_⟩
  intro a amount daily h
  unfold validate_transaction at h
  split_ifs at h with h1 h2 <;> simp_all [MIN_TRANSACTION_AMOUNT]

/-- C10 witness: at balance 0 the amount -5 does trigger the minimum-amount
branch, and the theorem reports it negative. -/
theorem min_amount_branch_only_negative_witness : (-5 : ℚ) < 0 :=
  min_amount_branch_only_negative.2 (AccountState.mk 0 "active") (-5) 0 (by
    norm_num [validate_transaction, MIN_TRANSACTION_AMOUNT])

/-! ## Codec lemmas (towards C9) -/

/-- Helper: `natDigitsAux` returns the little-endian digits of its argument
when the fuel is sufficient. -/
theorem natDigitsAux_val : ∀ fuel n, n ≤ fuel → digitsValLE (natDigitsAux fuel n) = n := by
  intro fuel
  induction fuel with
  | zero =>
    intro n h
    have : n = 0 := by omega
    simp [this, natDigitsAux, digitsValLE]
  | succ f ih =>
    intro n h
    by_cases h0 : n = 0
    · simp [h0, natDigitsAux, digitsValLE]
    · have hrec := ih (n / 10) (by omega)
      simp only [natDigitsAux, if_neg h0, digitsValLE, List.foldr_cons] at *
      omega

/-- Helper: every digit produced by `natDigitsAux` is below 10. -/
theorem natDigitsAux_lt : ∀ fuel n d, d ∈ natDigitsAux fuel n → d < 10 := by
  intro fuel
  induction fuel with
  | zero => intro n d hd; simp [natDigitsAux] at hd
  | succ f ih =>
    intro n d hd
    by_cases h0 : n = 0
    · simp [natDigitsAux, h0] at hd
    · simp only [natDigitsAux, if_neg h0, List.mem_cons] at hd
      rcases hd with hd | hd
      · omega
      · exact ih (n / 10) d hd

/-- Helper: a positive number has at least one digit. -/
theorem natDigitsAux_ne_nil (fuel n : Nat) (h1 : 0 < n) (h2 : n ≤ fuel) :
    natDigitsAux fuel n ≠ [] := by
  cases fuel with
  | zero => omega
  | succ f => simp [natDigitsAux, Nat.pos_iff_ne_zero.mp h1]

/-- Helper: the most significant digit (last in little-endian order) of a
positive number is nonzero. -/
theorem natDigitsAux_last : ∀ fuel n, 0 < n → n ≤ fuel →
    ∀ d, (natDigitsAux fuel n).getLast? = some d → 0 < d := by
  intro fuel
  induction fuel with
  | zero => intro n h1 h2; omega
  | succ f ih =>
    intro n h1 h2 d hd
    rw [natDigitsAux, if_neg (by omega)] at hd
    by_cases hq : n / 10 = 0
    · have hnil : natDigitsAux f (n / 10) = [] := by
        cases f <;> simp [natDigitsAux, hq]
      rw [hnil, List.getLast?_singleton] at hd
      have : d = n % 10 := by
        injection hd with h
        omega
      omega
    · have hne := natDigitsAux_ne_nil f (n / 10) (by omega) (by omega)
      obtain ⟨x, t, hxt⟩ := List.exists_cons_of_ne_nil hne
      rw [hxt, List.getLast?_cons_cons] at hd
      exact ih (n / 10) (by omega) (by omega) d (by rw [hxt]; exact hd)

/-- Helper: reading big-endian ASCII digit codes recovers the little-endian
digit value. -/
theorem digitsVal_reverse : ∀ l : List Nat,
    digitsVal (l.reverse.map (· + 48)) = digitsValLE l := by
  intro l
  induction l with
  | nil => simp [digitsVal, digitsValLE]
  | cons d l ih =>
    simp only [List.reverse_cons, List.map_append, List.map_cons, List.map_nil,
      digitsVal, List.foldl_append, List.foldl_cons, List.foldl_nil] at *
    simp only [digitsValLE, List.foldr_cons] at *
    omega

/-- Helper: every ASCII code of a serialized natural number is a digit code
(in particular below 128). -/
theorem serializeNat_all (n : Nat) : ∀ c ∈ serializeNat n, isDigitCode c = true := by
  intro c hc
  unfold serializeNat at hc
  split at hc
  · simp at hc
    simp [hc, isDigitCode]
  · simp only [List.mem_map, List.mem_reverse] at hc
    obtain ⟨d, hd, rfl⟩ := hc
    have := natDigitsAux_lt n n d hd
    simp [isDigitCode]
    omega

/-- Helper: shape of a serialized natural number: it starts with a digit
code, and with a nonzero digit when the number is positive. -/
theorem serializeNat_head (n : Nat) :
    ∃ c cs, serializeNat n = c :: cs ∧ 48 ≤ c ∧ c ≤ 57 ∧ (0 < n → c ≠ 48) := by
  by_cases h0 : n = 0
  · exact ⟨48, [], by simp [h0, serializeNat], by omega, by omega, by omega⟩
  · have hne : natDigits n ≠ [] := natDigitsAux_ne_nil n n (by omega) le_rfl
    have hne2 : (natDigits n).reverse.map (· + 48) ≠ [] := by
      simp [hne]
    obtain ⟨c, cs, hcs⟩ := List.exists_cons_of_ne_nil hne2
    refine ⟨c, cs, ?_, ?_, ?_, ?_⟩
    · simp [serializeNat, h0, hcs]
    · have hc : c ∈ (natDigits n).reverse.map (· + 48) := by rw [hcs]; simp
      simp only [List.mem_map, List.mem_reverse] at hc
      obtain ⟨d, hd, rfl⟩ := hc
      omega
    · have hc : c ∈ (natDigits n).reverse.map (· + 48) := by rw [hcs]; simp
      simp only [List.mem_map, List.mem_reverse] at hc
      obtain ⟨d, hd, rfl⟩ := hc
      have := natDigitsAux_lt n n d hd
      omega
    · intro _
      have hhead : ((natDigits n).reverse.map (· + 48)).head? = some c := by
        rw [hcs]; rfl
      rw [List.map_reverse, List.head?_reverse] at hhead
      rw [List.getLast?_map] at hhead
      obtain ⟨d, hd, hdc⟩ := Option.map_eq_some.mp hhead
      have := natDigitsAux_last n n (by omega) le_rfl d hd
      omega

/-- Helper: reading back the decimal digits of a serialized natural number
recovers it. -/
theorem digitsVal_serializeNat (n : Nat) : digitsVal (serializeNat n) = n := by
  unfold serializeNat
  split
  · simp [digitsVal]
    omega
  · rw [digitsVal_reverse]
    exact natDigitsAux_val n n le_rfl

/-- Helper: `takeWhile`/`dropWhile` split an appended list exactly at the
boundary when the prefix satisfies the predicate and the suffix starts with a
failing element. -/
theorem takeWhile_append_all {p : Nat → Bool} : ∀ (l r : List Nat),
    (∀ x ∈ l, p x = true) → (∀ c, r.head? = some c → p c = false) →
    (l ++ r).takeWhile p = l ∧ (l ++ r).dropWhile p = r := by
  intro l
  induction l with
  | nil =>
    intro r _ hr
    cases r with
    | nil => simp
    | cons c r' =>
      have := hr c rfl
      simp [List.takeWhile_cons, List.dropWhile_cons, this]
  | cons x l ih =>
    intro r hl hr
    have hx : p x = true := hl x (by simp)
    have hrec := ih r (fun y hy => hl y (by simp [hy])) hr
    simp [List.takeWhile_cons, List.dropWhile_cons, hx, hrec.1, hrec.2]

/-- Helper: the number reader recovers a serialized natural number followed
by a safe continuation. -/
theorem parseNat_serializeNat (n : Nat) (rest : List Nat) (hr : numSafeP rest) :
    parseNat (serializeNat n ++ rest) = some (n, rest) := by
  obtain ⟨tw, dw⟩ := takeWhile_append_all (serializeNat n) rest (serializeNat_all n)
    (fun c hc => (hr c hc).1)
  obtain ⟨c, cs, hshape, h48, h57, hnz⟩ := serializeNat_head n
  have hdv := digitsVal_serializeNat n
  have htail : numTailOk rest = true := by
    cases rest with
    | nil => rfl
    | cons c0 r0 =>
      obtain ⟨_, h46, h101, h69⟩ := hr c0 rfl
      simp [numTailOk]
      omega
  have hcond : (cs.isEmpty || !(c == 48)) = true := by
    by_cases h0 : n = 0
    · have h1 : serializeNat 0 = [48] := by simp [serializeNat]
      rw [h0, h1] at hshape
      injection hshape with hc hcs
      simp [← hcs]
    · have hcne : c ≠ 48 := hnz (by omega)
      have : (c == 48) = false := beq_eq_false_iff_ne.mpr hcne
      simp [this]
  rw [hshape] at hdv
  rw [hshape] at tw dw ⊢
  unfold parseNat
  rw [tw]
  simp only [dw, htail, hcond, Bool.true_and, eq_self_iff_true, if_true, hdv]

/-- Helper: the number reader recovers a serialized integer followed by a
safe continuation. -/
theorem parseNumber_serializeInt (n : Int) (rest : List Nat) (hr : numSafeP rest) :
    parseNumber (serializeInt n ++ rest) = some (.num n, rest) := by
  cases n with
  | ofNat m =>
    obtain ⟨c, cs, hshape, h48, h57, _⟩ := serializeNat_head m
    have hpn := parseNat_serializeNat m rest hr
    simp only [serializeInt]
    rw [hshape]
    simp only [List.cons_append, parseNumber]
    rw [if_neg (by omega)]
    rw [show c :: (cs ++ rest) = serializeNat m ++ rest by rw [hshape]; simp]
    rw [hpn]
    rfl
  | negSucc m =>
    have hpn := parseNat_serializeNat (m + 1) rest hr
    simp only [serializeInt, List.cons_append, parseNumber, if_pos rfl]
    rw [hpn]
    simp [Int.negSucc_eq]

/-- Helper: hexadecimal digit codes read back to their values. -/
theorem hexVal_hexDigit : ∀ d, d < 16 → hexVal (hexDigit d) = some d := by
  decide

/-- Helper: base64 alphabet characters read back to their values. -/
theorem b64Code_b64Index : ∀ n, n < 64 → b64Code (b64Index n) = some n := by
  decide

/-- Helper: the padding character is not in the base64 alphabet image. -/
theorem b64Index_ne_61 (n : Nat) : b64Index n ≠ 61 := by
  unfold b64Index
  split_ifs <;> omega

/-- Helper: every base64 alphabet character is URL-safe. -/
theorem isB64UrlChar_b64Index (n : Nat) : isB64UrlChar (b64Index n) = true := by
  by_cases h : n < 64
  · simp [isB64UrlChar, b64Code_b64Index n h]
  · have h95 : b64Index n = 95 := by
      unfold b64Index
      split_ifs <;> omega
    rw [h95]
    decide

/-- Helper: base64 decoding inverts base64 encoding on byte lists. -/
theorem b64_roundtrip : ∀ bs : List Nat, (∀ b ∈ bs, b < 256) →
    urlsafe_b64decode (urlsafe_b64encode bs) = some bs := by
  intro bs
  induction bs using urlsafe_b64encode.induct with
  | case1 => intro _; rfl
  | case2 b1 =>
    intro h
    have hb1 : b1 < 256 := h b1 (by simp)
    simp only [urlsafe_b64encode, urlsafe_b64decode,
      b64Code_b64Index (b1 / 4) (by omega), b64Code_b64Index (b1 % 4 * 16) (by omega),
      Option.bind_eq_bind, Option.some_bind]
    simp only [and_self, if_true, pure, Option.some.injEq, List.cons.injEq, and_true]
    omega
  | case3 b1 b2 =>
    intro h
    have hb1 : b1 < 256 := h b1 (by simp)
    have hb2 : b2 < 256 := h b2 (by simp)
    simp only [urlsafe_b64encode, urlsafe_b64decode,
      b64Code_b64Index (b1 / 4) (by omega), b64Code_b64Index (b1 % 4 * 16 + b2 / 16) (by omega),
      b64Code_b64Index (b2 % 16 * 4) (by omega), Option.bind_eq_bind, Option.some_bind]
    rw [if_neg (b64Index_ne_61 _)]
    simp only [Option.bind_eq_bind, Option.some_bind, and_self, if_true, pure,
      Option.some.injEq, List.cons.injEq, and_true]
    constructor <;> omega
  | case4 b1 b2 b3 rest ih =>
    intro h
    have hb1 : b1 < 256 := h b1 (by simp)
    have hb2 : b2 < 256 := h b2 (by simp)
    have hb3 : b3 < 256 := h b3 (by simp)
    have hrest := ih (fun b hb => h b (by simp [hb]))
    simp only [urlsafe_b64encode, urlsafe_b64decode,
      b64Code_b64Index (b1 / 4) (by omega), b64Code_b64Index (b1 % 4 * 16 + b2 / 16) (by omega),
      b64Code_b64Index (b2 % 16 * 4 + b3 / 64) (by omega), b64Code_b64Index (b3 % 64) (by omega),
      Option.bind_eq_bind, Option.some_bind]
    rw [if_neg (b64Index_ne_61 _), if_neg (b64Index_ne_61 _)]
    simp only [Option.bind_eq_bind, Option.some_bind, hrest]
    simp only [pure, Option.some.injEq, List.cons.injEq, and_true]
    refine ⟨by omega, by omega, by omega⟩

/-- Helper: every character of a base64 encoding is URL-safe (alphabet or
padding). -/
theorem b64_encode_chars : ∀ bs c, c ∈ urlsafe_b64encode bs → isB64UrlChar c = true := by
  intro bs
  induction bs using urlsafe_b64encode.induct with
  | case1 => intro c hc; simp [urlsafe_b64encode] at hc
  | case2 b1 =>
    intro c hc
    simp only [urlsafe_b64encode, List.mem_cons, List.mem_singleton] at hc
    rcases hc with rfl | rfl | rfl | rfl | hc
    · exact isB64UrlChar_b64Index _
    · exact isB64UrlChar_b64Index _
    · rfl
    · rfl
    · simp at hc
  | case3 b1 b2 =>
    intro c hc
    simp only [urlsafe_b64encode, List.mem_cons, List.mem_singleton] at hc
    rcases hc with rfl | rfl | rfl | rfl | hc
    · exact isB64UrlChar_b64Index _
    · exact isB64UrlChar_b64Index _
    · exact isB64UrlChar_b64Index _
    · rfl
    · simp at hc
  | case4 b1 b2 b3 rest ih =>
    intro c hc
    simp only [urlsafe_b64encode, List.mem_cons] at hc
    rcases hc with rfl | rfl | rfl | rfl | hc
    · exact isB64UrlChar_b64Index _
    · exact isB64UrlChar_b64Index _
    · exact isB64UrlChar_b64Index _
    · exact isB64UrlChar_b64Index _
    · exact ih c hc

/-- Helper: UTF-8 encoding is the identity on ASCII code point lists. -/
theorem utf8Encode_ascii : ∀ l : List Nat, (∀ c ∈ l, c < 128) → utf8Encode l = l := by
  intro l
  induction l with
  | nil => intro _; rfl
  | cons c r ih =>
    intro h
    have hc : c < 128 := h c (by simp)
    have hr := ih (fun x hx => h x (by simp [hx]))
    simp only [utf8Encode, List.map_cons, List.flatten_cons] at *
    rw [hr, utf8EncodeChar, if_pos hc]
    rfl

/-- Helper: the UTF-8 decoding loop is the identity on ASCII byte lists when
given enough fuel. -/
theorem utf8DecodeAux_ascii : ∀ (l : List Nat) (fuel : Nat), (∀ c ∈ l, c < 128) →
    l.length ≤ fuel → utf8DecodeAux fuel l = some l := by
  intro l
  induction l with
  | nil => intro fuel _ _; cases fuel <;> rfl
  | cons c r ih =>
    intro fuel h hlen
    have hc : c < 128 := h c (by simp)
    cases fuel with
    | zero => simp at hlen
    | succ f =>
      have hstep : utf8DecodeStep c r = some (c, r) := by
        simp [utf8DecodeStep, hc]
      have hr := ih f (fun x hx => h x (by simp [hx])) (by simp at hlen; omega)
      rw [utf8DecodeAux, hstep]
      simp [hr]

/-- Helper: UTF-8 decoding is the identity on ASCII byte lists. -/
theorem utf8Decode_ascii (l : List Nat) (h : ∀ c ∈ l, c < 128) : utf8Decode l = some l :=
  utf8DecodeAux_ascii l l.length h le_rfl

/-- Helper: every character escape is nonempty. -/
theorem escapeChar_length (c : Nat) : 1 ≤ (escapeChar c).length := by
  unfold escapeChar
  split_ifs <;> simp [hex4]

/-- Helper: an escaped string is at least as long as the string. -/
theorem flatten_escape_length : ∀ cps : List Nat,
    cps.length ≤ ((cps.map escapeChar).flatten).length := by
  intro cps
  induction cps with
  | nil => simp
  | cons c cps ih =>
    simp only [List.map_cons, List.flatten_cons, List.length_cons, List.length_append]
    have := escapeChar_length c
    omega

/-- Helper: hexadecimal digit codes are ASCII. -/
theorem hex4_mem (n x : Nat) (hx : x ∈ hex4 n) : 48 ≤ x ∧ x ≤ 102 := by
  simp only [hex4, List.mem_cons, List.not_mem_nil, or_false] at hx
  have hb : ∀ d, d < 16 → 48 ≤ hexDigit d ∧ hexDigit d ≤ 102 := by decide
  rcases hx with rfl | rfl | rfl | rfl <;> exact hb _ (by omega)

/-- Helper: character escapes consist of ASCII codes. -/
theorem escapeChar_ascii (c x : Nat) (hx : x ∈ escapeChar c) : x < 128 := by
  unfold escapeChar at hx
  split_ifs at hx <;>
    simp only [List.mem_cons, List.mem_append, List.not_mem_nil, or_false,
      List.mem_singleton] at hx
  case _ => rcases hx with rfl | rfl <;> omega
  case _ => rcases hx with rfl | rfl <;> omega
  case _ => rcases hx with rfl | rfl <;> omega
  case _ => rcases hx with rfl | rfl <;> omega
  case _ => rcases hx with rfl | rfl <;> omega
  case _ => rcases hx with rfl | rfl <;> omega
  case _ => rcases hx with rfl | rfl <;> omega
  case _ => omega
  case _ =>
    rcases hx with rfl | rfl | hx
    · omega
    · omega
    · have := hex4_mem c x hx
      omega
  case _ =>
    rcases hx with (rfl | rfl | hx) | (rfl | rfl | hx)
    · omega
    · omega
    · have := hex4_mem _ x hx
      omega
    · omega
    · omega
    · have := hex4_mem _ x hx
      omega

/-- Helper: reading a high-surrogate escape immediately followed by a
low-surrogate escape combines the pair into one code point. -/
theorem parseString_pair_step (h lo : Nat) (hh : 55296 ≤ h ∧ h ≤ 56319)
    (hlo : 56320 ≤ lo ∧ lo ≤ 57343) (fuel : Nat) (tail : List Nat) :
    parseStringBodyAux (fuel + 1) (92 :: 117 :: hex4 h ++ (92 :: 117 :: hex4 lo ++ tail)) =
      (parseStringBodyAux fuel tail).map
        (fun p => ((65536 + (h - 55296) * 1024 + (lo - 56320)) :: p.1, p.2)) := by
  simp [hex4, parseStringBodyAux]
  rw [hexVal_hexDigit (h / 4096 % 16) (by omega), hexVal_hexDigit (h / 256 % 16) (by omega),
    hexVal_hexDigit (h / 16 % 16) (by omega), hexVal_hexDigit (h % 16) (by omega)]
  dsimp only
  have hH : ((h / 4096 % 16 * 16 + h / 256 % 16) * 16 + h / 16 % 16) * 16 + h % 16 = h := by
    omega
  simp only [hH]
  rw [if_pos (by omega : 55296 ≤ h ∧ h ≤ 56319)]
  rw [hexVal_hexDigit (lo / 4096 % 16) (by omega), hexVal_hexDigit (lo / 256 % 16) (by omega),
    hexVal_hexDigit (lo / 16 % 16) (by omega), hexVal_hexDigit (lo % 16) (by omega)]
  dsimp only
  have hL : ((lo / 4096 % 16 * 16 + lo / 256 % 16) * 16 + lo / 16 % 16) * 16 + lo % 16 = lo := by
    omega
  simp only [hL]
  rw [if_pos (by omega : 56320 ≤ lo ∧ lo ≤ 57343)]

/-- Helper: the string reader consumes exactly one escaped scalar character
and continues, one fuel unit per character. -/
theorem parseString_step (c : Nat) (hlt : c < 1114112) (hsur : ¬(55296 ≤ c ∧ c ≤ 57343))
    (fuel : Nat) (tail : List Nat) :
    parseStringBodyAux (fuel + 1) (escapeChar c ++ tail) =
      (parseStringBodyAux fuel tail).map (fun p => (c :: p.1, p.2)) := by
  unfold escapeChar
  split_ifs with h1 h2 h3 h4 h5 h6 h7 h8 h9
  · subst h1; simp [parseStringBodyAux]
  · subst h2; simp [parseStringBodyAux]
  · subst h3; simp [parseStringBodyAux]
  · subst h4; simp [parseStringBodyAux]
  · subst h5; simp [parseStringBodyAux]
  · subst h6; simp [parseStringBodyAux]
  · subst h7; simp [parseStringBodyAux]
  · simp only [List.singleton_append, parseStringBodyAux]
    rw [if_neg h1, if_neg h2, if_neg (by omega : ¬ c < 32)]
  · simp only [hex4, List.cons_append, List.nil_append, parseStringBodyAux]
    rw [hexVal_hexDigit (c / 4096 % 16) (by omega), hexVal_hexDigit (c / 256 % 16) (by omega),
      hexVal_hexDigit (c / 16 % 16) (by omega), hexVal_hexDigit (c % 16) (by omega)]
    have hval : ((c / 4096 % 16 * 16 + c / 256 % 16) * 16 + c / 16 % 16) * 16 + c % 16 = c := by
      omega
    simp only [hval]
    rw [if_neg (by omega : ¬ (55296 ≤ c ∧ c ≤ 56319))]
    simp
  · have hmain := parseString_pair_step (55296 + (c - 65536) / 1024)
      (56320 + (c - 65536) % 1024) ⟨by omega, by omega⟩ ⟨by omega, by omega⟩ fuel tail
    have hc : 65536 + (55296 + (c - 65536) / 1024 - 55296) * 1024 +
        (56320 + (c - 65536) % 1024 - 56320) = c := by
      omega
    simp only [hc] at hmain
    simp only [List.cons_append, List.append_assoc] at hmain ⊢
    exact hmain

/-- Helper: with one fuel unit per character plus one for the closing quote,
the string reader recovers an escaped scalar string exactly. -/
theorem parseStringBodyAux_complete : ∀ (cps : List Nat) (fuel : Nat) (rest : List Nat),
    wfStr cps = true → cps.length < fuel →
    parseStringBodyAux fuel ((cps.map escapeChar).flatten ++ 34 :: rest) = some (cps, rest) := by
  intro cps
  induction cps with
  | nil =>
    intro fuel rest _ hfuel
    cases fuel with
    | zero => omega
    | succ f => simp [parseStringBodyAux]
  | cons c cps ih =>
    intro fuel rest hwf hfuel
    cases fuel with
    | zero => simp at hfuel
    | succ f =>
      simp only [wfStr, List.all_cons, Bool.and_eq_true, decide_eq_true_eq,
        Bool.not_eq_true', Bool.and_eq_false_iff, decide_eq_false_iff_not] at hwf
      have hc1 : c < 1114112 := hwf.1.1
      have hc2 : ¬(55296 ≤ c ∧ c ≤ 57343) := by
        rcases hwf.1.2 with h | h
        · intro hcc; exact h hcc.1
        · intro hcc; exact h hcc.2
      have hwfr : wfStr cps = true := by
        simp only [wfStr]
        exact hwf.2
      simp only [List.map_cons, List.flatten_cons, List.append_assoc]
      rw [parseString_step c hc1 hc2 f _]
      rw [ih f rest hwfr (by simp at hfuel; omega)]
      rfl

/-- Helper: the string reader recovers an escaped scalar string (the wrapper
fuel, the input length, always suffices). -/
theorem parseStringBody_complete (cps rest : List Nat) (h : wfStr cps = true) :
    parseStringBody ((cps.map escapeChar).flatten ++ 34 :: rest) = some (cps, rest) := by
  unfold parseStringBody
  apply parseStringBodyAux_complete cps _ rest h
  have := flatten_escape_length cps
  simp only [List.length_append, List.length_cons]
  omega

/-- Helper: serialized strings consist of ASCII codes. -/
theorem serializeString_ascii (cps : List Nat) : ∀ x ∈ serializeString cps, x < 128 := by
  intro x hx
  simp only [serializeString, List.mem_cons, List.mem_append, List.mem_singleton] at hx
  rcases hx with (rfl | hx) | (rfl | h0)
  · omega
  · rw [List.mem_flatten] at hx
    obtain ⟨l, hl, hxl⟩ := hx
    rw [List.mem_map] at hl
    obtain ⟨c, _, rfl⟩ := hl
    exact escapeChar_ascii c x hxl
  · omega
  · simp at h0

/-- Helper: serialized integers consist of ASCII codes. -/
theorem serializeInt_ascii (n : Int) : ∀ x ∈ serializeInt n, x < 128 := by
  intro x hx
  cases n with
  | ofNat m =>
    have := serializeNat_all m x hx
    simp [isDigitCode] at this
    omega
  | negSucc m =>
    simp only [serializeInt, List.mem_cons] at hx
    rcases hx with rfl | hx
    · omega
    · have := serializeNat_all (m + 1) x hx
      simp [isDigitCode] at this
      omega

/-- Helper: serialized naturals are nonempty. -/
theorem serializeNat_length (n : Nat) : 1 ≤ (serializeNat n).length := by
  obtain ⟨c, cs, hshape, _, _, _⟩ := serializeNat_head n
  simp [hshape]

/-- Helper: serialized integers are nonempty. -/
theorem serializeInt_length (n : Int) : 1 ≤ (serializeInt n).length := by
  cases n with
  | ofNat m => exact serializeNat_length m
  | negSucc m => simp [serializeInt]

/-- Helper: every JSON value has positive size. -/
theorem json_sizeOf_pos (v : Json) : 0 < sizeOf v := by
  cases v <;> simp

/-- Helper: simultaneous ASCII bound for the three serializer functions, by
strong induction on size (they recurse through nested lists). -/
theorem serialize_ascii_all : ∀ n : Nat,
    (∀ v : Json, sizeOf v ≤ n → ∀ x ∈ serializeVal v, x < 128) ∧
    (∀ vs : List Json, sizeOf vs ≤ n → ∀ x ∈ serializeArrTail vs, x < 128) ∧
    (∀ ms : List (List Nat × Json), sizeOf ms ≤ n →
      ∀ x ∈ serializeObjTail ms, x < 128) := by
  intro n
  induction n with
  | zero =>
    refine ⟨fun v hv => absurd hv (by have := json_sizeOf_pos v; omega), ?_, ?_⟩
    · intro vs hvs
      cases vs <;> simp_all
    · intro ms hms
      cases ms <;> simp_all
  | succ n ih =>
    obtain ⟨ih1, ih2, ih3⟩ := ih
    refine ⟨?_, ?_, ?_⟩
    · intro v hv x hx
      cases v with
      | null => simp [serializeVal] at hx; rcases hx with rfl | rfl | rfl | rfl <;> omega
      | bool b =>
        cases b <;> simp [serializeVal] at hx <;>
          rcases hx with rfl | rfl | rfl | rfl | rfl <;> omega
      | num m => exact serializeInt_ascii m x hx
      | str cps => exact serializeString_ascii cps x hx
      | arr vs =>
        cases vs with
        | nil => simp [serializeVal] at hx; rcases hx with rfl | rfl <;> omega
        | cons v0 vs0 =>
          simp only [serializeVal, List.mem_cons, List.mem_append] at hx
          simp only [Json.arr.sizeOf_spec, List.cons.sizeOf_spec] at hv
          rcases hx with (rfl | hx) | hx
          · omega
          · exact ih1 v0 (by omega) x hx
          · exact ih2 vs0 (by omega) x hx
      | obj ms =>
        cases ms with
        | nil => simp [serializeVal] at hx; rcases hx with rfl | rfl <;> omega
        | cons kv ms0 =>
          obtain ⟨k, v0⟩ := kv
          simp only [serializeVal, List.mem_cons, List.mem_append] at hx
          simp only [Json.obj.sizeOf_spec, List.cons.sizeOf_spec, Prod.mk.sizeOf_spec] at hv
          rcases hx with ((rfl | hx) | rfl | rfl | hx) | hx
          · omega
          · exact serializeString_ascii k x hx
          · omega
          · omega
          · exact ih1 v0 (by omega) x hx
          · exact ih3 ms0 (by omega) x hx
    · intro vs hvs x hx
      cases vs with
      | nil => simp [serializeArrTail] at hx; omega
      | cons v0 vs0 =>
        simp only [serializeArrTail, List.mem_cons, List.mem_append] at hx
        simp only [List.cons.sizeOf_spec] at hvs
        rcases hx with (rfl | rfl | hx) | hx
        · omega
        · omega
        · exact ih1 v0 (by omega) x hx
        · exact ih2 vs0 (by omega) x hx
    · intro ms hms x hx
      cases ms with
      | nil => simp [serializeObjTail] at hx; omega
      | cons kv ms0 =>
        obtain ⟨k, v0⟩ := kv
        simp only [serializeObjTail, List.mem_cons, List.mem_append] at hx
        simp only [List.cons.sizeOf_spec, Prod.mk.sizeOf_spec] at hms
        rcases hx with ((rfl | rfl | hx) | rfl | rfl | hx) | hx
        · omega
        · omega
        · exact serializeString_ascii k x hx
        · omega
        · omega
        · exact ih1 v0 (by omega) x hx
        · exact ih3 ms0 (by omega) x hx

/-- Helper: serialized JSON documents consist of ASCII codes (the effect of
`ensure_ascii=True`). -/
theorem serializeVal_ascii (v : Json) : ∀ x ∈ serializeVal v, x < 128 :=
  (serialize_ascii_all (sizeOf v)).1 v le_rfl

/-- Helper: simultaneous fuel bound for the three serializer functions: the
reading fuel a value needs is at most its serialized length. -/
theorem fuel_le_all : ∀ n : Nat,
    (∀ v : Json, sizeOf v ≤ n → fuelV v ≤ (serializeVal v).length) ∧
    (∀ vs : List Json, sizeOf vs ≤ n → fuelL vs + 1 ≤ (serializeArrTail vs).length) ∧
    (∀ ms : List (List Nat × Json), sizeOf ms ≤ n →
      fuelM ms + 1 ≤ (serializeObjTail ms).length) := by
  intro n
  induction n with
  | zero =>
    refine ⟨fun v hv => absurd hv (by have := json_sizeOf_pos v; omega), ?_, ?_⟩
    · intro vs hvs
      cases vs <;> simp_all
    · intro ms hms
      cases ms <;> simp_all
  | succ n ih =>
    obtain ⟨ih1, ih2, ih3⟩ := ih
    refine ⟨?_, ?_, ?_⟩
    · intro v hv
      cases v with
      | null => simp [serializeVal, fuelV]
      | bool b => cases b <;> simp [serializeVal, fuelV]
      | num m =>
        have := serializeInt_length m
        simp only [serializeVal, fuelV]
        omega
      | str cps =>
        simp [serializeVal, fuelV, serializeString]
      | arr vs =>
        cases vs with
        | nil => simp [serializeVal, fuelV, fuelL]
        | cons v0 vs0 =>
          simp only [Json.arr.sizeOf_spec, List.cons.sizeOf_spec] at hv
          have h1 := ih1 v0 (by omega)
          have h2 := ih2 vs0 (by omega)
          simp only [serializeVal, fuelV, fuelL, List.length_cons, List.length_append]
          omega
      | obj ms =>
        cases ms with
        | nil => simp [serializeVal, fuelV, fuelM]
        | cons kv ms0 =>
          obtain ⟨k, v0⟩ := kv
          simp only [Json.obj.sizeOf_spec, List.cons.sizeOf_spec, Prod.mk.sizeOf_spec] at hv
          have h1 := ih1 v0 (by omega)
          have h3 := ih3 ms0 (by omega)
          have hk : 2 ≤ (serializeString k).length := by
            simp [serializeString]
          simp only [serializeVal, fuelV, fuelM, List.length_cons, List.length_append]
          omega
    · intro vs hvs
      cases vs with
      | nil => simp [serializeArrTail, fuelL]
      | cons v0 vs0 =>
        simp only [List.cons.sizeOf_spec] at hvs
        have h1 := ih1 v0 (by omega)
        have h2 := ih2 vs0 (by omega)
        simp only [serializeArrTail, fuelL, List.length_cons, List.length_append]
        omega
    · intro ms hms
      cases ms with
      | nil => simp [serializeObjTail, fuelM]
      | cons kv ms0 =>
        obtain ⟨k, v0⟩ := kv
        simp only [List.cons.sizeOf_spec, Prod.mk.sizeOf_spec] at hms
        have h1 := ih1 v0 (by omega)
        have h3 := ih3 ms0 (by omega)
        have hk : 2 ≤ (serializeString k).length := by
          simp [serializeString]
        simp only [serializeObjTail, fuelM, List.length_cons, List.length_append]
        omega

/-- Helper: the reading fuel a value needs is at most its serialized
length. -/
theorem fuelV_le (v : Json) : fuelV v ≤ (serializeVal v).length :=
  (fuel_le_all (sizeOf v)).1 v le_rfl

/-- Helper: a serialized value starts with a non-whitespace character other
than a closing bracket or closing brace. -/
theorem serializeVal_head (v : Json) :
    ∃ c cs, serializeVal v = c :: cs ∧ isWsCode c = false ∧ c ≠ 93 ∧ c ≠ 125 := by
  cases v with
  | null => exact ⟨110, [117, 108, 108], by simp [serializeVal], by decide, by decide, by decide⟩
  | bool b =>
    cases b with
    | true => exact ⟨116, [114, 117, 101], by simp [serializeVal], by decide, by decide, by decide⟩
    | false =>
      exact ⟨102, [97, 108, 115, 101], by simp [serializeVal], by decide, by decide, by decide⟩
  | num m =>
    cases m with
    | ofNat q =>
      obtain ⟨c, cs, hshape, h48, h57, _⟩ := serializeNat_head q
      refine ⟨c, cs, by simp [serializeVal, serializeInt, hshape], ?_, by omega, by omega⟩
      simp only [isWsCode]
      simp only [Bool.or_eq_false_iff, beq_eq_false_iff_ne]
      omega
    | negSucc q =>
      exact ⟨45, serializeNat (q + 1), by simp [serializeVal, serializeInt], by decide,
        by decide, by decide⟩
  | str cps =>
    exact ⟨34, (cps.map escapeChar).flatten ++ [34], by simp [serializeVal, serializeString],
      by decide, by decide, by decide⟩
  | arr vs =>
    cases vs with
    | nil => exact ⟨91, [93], by simp [serializeVal], by decide, by decide, by decide⟩
    | cons v0 vs0 =>
      exact ⟨91, serializeVal v0 ++ serializeArrTail vs0, by simp [serializeVal], by decide,
        by decide, by decide⟩
  | obj ms =>
    cases ms with
    | nil => exact ⟨123, [125], by simp [serializeVal], by decide, by decide, by decide⟩
    | cons kv ms0 =>
      obtain ⟨k, v0⟩ := kv
      exact ⟨123, serializeString k ++ 58 :: 32 :: serializeVal v0 ++ serializeObjTail ms0,
        by simp [serializeVal], by decide, by decide, by decide⟩

/-- Helper: whitespace skipping stops at a non-whitespace head. -/
theorem skipWs_cons_not (c : Nat) (l : List Nat) (h : isWsCode c = false) :
    skipWs (c :: l) = c :: l := by
  simp [skipWs, List.dropWhile_cons, h]

/-- Helper: whitespace skipping drops a leading space. -/
theorem skipWs_cons32 (l : List Nat) : skipWs (32 :: l) = skipWs l := by
  simp [skipWs, List.dropWhile_cons, isWsCode]

/-- Helper: whitespace skipping leaves a serialized value alone. -/
theorem skipWs_serializeVal (v : Json) (rest : List Nat) :
    skipWs (serializeVal v ++ rest) = serializeVal v ++ rest := by
  obtain ⟨c, cs, hshape, hws, _, _⟩ := serializeVal_head v
  rw [hshape, List.cons_append, skipWs_cons_not _ _ hws]

/-- Helper: whitespace skipping leaves a serialized string alone (it starts
with the quote). -/
theorem skipWs_serializeString (k : List Nat) (rest : List Nat) :
    skipWs (serializeString k ++ rest) = serializeString k ++ rest := by
  simp only [serializeString, List.cons_append]
  rw [skipWs_cons_not 34 _ (by decide)]

/-- Helper: a serialized integer starts with a minus sign or a digit. -/
theorem serializeInt_head (n : Int) :
    ∃ c cs, serializeInt n = c :: cs ∧ (c = 45 ∨ (48 ≤ c ∧ c ≤ 57)) := by
  cases n with
  | ofNat m =>
    obtain ⟨c, cs, hshape, h48, h57, _⟩ := serializeNat_head m
    exact ⟨c, cs, by simp [serializeInt, hshape], Or.inr ⟨h48, h57⟩⟩
  | negSucc m =>
    exact ⟨45, serializeNat (m + 1), by simp [serializeInt], Or.inl rfl⟩

/-- Helper: an array tail is a number-safe continuation (it starts with a
comma or a closing bracket). -/
theorem numSafeP_arrTail (vs : List Json) (rest : List Nat) :
    numSafeP (serializeArrTail vs ++ rest) := by
  intro c hc
  cases vs <;> simp only [serializeArrTail, List.cons_append, List.head?_cons,
    Option.some.injEq] at hc <;> subst hc <;> exact ⟨by decide, by decide, by decide, by decide⟩

/-- Helper: an object tail is a number-safe continuation (it starts with a
comma or the closing brace). -/
theorem numSafeP_objTail (ms : List (List Nat × Json)) (rest : List Nat) :
    numSafeP (serializeObjTail ms ++ rest) := by
  intro c hc
  cases ms with
  | nil =>
    simp only [serializeObjTail, List.cons_append, List.head?_cons, Option.some.injEq] at hc
    subst hc
    exact ⟨by decide, by decide, by decide, by decide⟩
  | cons kv ms0 =>
    obtain ⟨k, v⟩ := kv
    simp only [serializeObjTail, List.cons_append, List.head?_cons, Option.some.injEq] at hc
    subst hc
    exact ⟨by decide, by decide, by decide, by decide⟩

/-- Helper: every value needs at least one fuel unit. -/
theorem fuelV_pos (v : Json) : 1 ≤ fuelV v := by
  cases v <;> simp [fuelV]

/-- Helper: simultaneous completeness of the three readers on serializer
output, by induction on fuel: a reader given a serialized well-formed value
(preceded by optional whitespace, followed by a number-safe continuation)
returns exactly that value and the continuation. -/
theorem parse_serialize_all : ∀ fuel : Nat,
    (∀ (v : Json) (s rest : List Nat), wfV v = true → fuelV v ≤ fuel → numSafeP rest →
      skipWs s = serializeVal v ++ rest → parseVal fuel s = some (v, rest)) ∧
    (∀ (v : Json) (vs : List Json) (s rest : List Nat), wfV v = true → wfL vs = true →
      fuelV v + fuelL vs + 1 ≤ fuel → numSafeP rest →
      skipWs s = serializeVal v ++ (serializeArrTail vs ++ rest) →
      parseElems fuel s = some (v :: vs, rest)) ∧
    (∀ (k : List Nat) (v : Json) (ms : List (List Nat × Json)) (s rest : List Nat),
      wfStr k = true → wfV v = true → wfM ms = true →
      fuelV v + fuelM ms + 1 ≤ fuel → numSafeP rest →
      skipWs s = serializeString k ++
        (58 :: 32 :: (serializeVal v ++ (serializeObjTail ms ++ rest))) →
      parseMembers fuel s = some ((k, v) :: ms, rest)) := by
  intro fuel
  induction fuel with
  | zero =>
    refine ⟨?_, ?_, ?_⟩
    · intro v _ _ _ hfuel _ _
      have := fuelV_pos v
      omega
    · intro v _ _ _ _ _ hfuel _ _
      omega
    · intro _ v _ _ _ _ _ _ hfuel _ _
      omega
  | succ g ih =>
    obtain ⟨ih1, ih2, ih3⟩ := ih
    refine ⟨?_, ?_, ?_⟩
    · intro v s rest hwf hfuel hrest hskip
      cases v with
      | null =>
        simp only [serializeVal, List.cons_append, List.nil_append] at hskip
        simp [parseVal, hskip]
      | bool b =>
        cases b <;> simp only [serializeVal, List.cons_append, List.nil_append] at hskip <;>
          simp [parseVal, hskip]
      | num m =>
        obtain ⟨c, cs, hshape, hcor⟩ := serializeInt_head m
        simp only [serializeVal] at hskip
        rw [hshape, List.cons_append] at hskip
        have hpn := parseNumber_serializeInt m rest hrest
        rw [hshape, List.cons_append] at hpn
        simp only [parseVal, hskip]
        rw [if_neg (by omega), if_neg (by omega), if_neg (by omega), if_neg (by omega),
          if_neg (by omega), if_neg (by omega)]
        exact hpn
      | str cps =>
        have hskip' : skipWs s = 34 :: ((cps.map escapeChar).flatten ++ 34 :: rest) := by
          rw [hskip]
          simp [serializeVal, serializeString, List.cons_append, List.append_assoc]
        have hwfs : wfStr cps = true := by simpa [wfV] using hwf
        simp only [parseVal, hskip']
        rw [parseStringBody_complete cps rest hwfs]
        simp
      | arr vs =>
        cases vs with
        | nil =>
          have hskip' : skipWs s = 91 :: 93 :: rest := by
            rw [hskip]
            simp [serializeVal]
          simp [parseVal, hskip', skipWs_cons_not 93 rest (by decide)]
        | cons v0 vs0 =>
          obtain ⟨c0, cs0, hosh, hws0, h93, _⟩ := serializeVal_head v0
          have hskip' : skipWs s =
              91 :: (serializeVal v0 ++ (serializeArrTail vs0 ++ rest)) := by
            rw [hskip]
            simp [serializeVal, List.cons_append, List.append_assoc]
          have hro := skipWs_serializeVal v0 (serializeArrTail vs0 ++ rest)
          have hw : wfV v0 = true ∧ wfL vs0 = true := by
            simpa [wfV, wfL, Bool.and_eq_true] using hwf
          have hf : fuelV v0 + fuelL vs0 + 1 ≤ g := by
            simp only [fuelV, fuelL] at hfuel
            omega
          have hE := ih2 v0 vs0 (serializeVal v0 ++ (serializeArrTail vs0 ++ rest)) rest
            hw.1 hw.2 hf hrest hro
          simp only [parseVal, hskip']
          norm_num
          rw [hro, hosh, List.cons_append]
          simp only []
          rw [if_neg h93]
          rw [hosh, List.cons_append] at hE
          rw [hE]
          rfl
      | obj ms =>
        cases ms with
        | nil =>
          have hskip' : skipWs s = 123 :: 125 :: rest := by
            rw [hskip]
            simp [serializeVal]
          simp [parseVal, hskip', skipWs_cons_not 125 rest (by decide)]
        | cons kv ms0 =>
          obtain ⟨k, v0⟩ := kv
          have hskip' : skipWs s = 123 :: (serializeString k ++
              (58 :: 32 :: (serializeVal v0 ++ (serializeObjTail ms0 ++ rest)))) := by
            rw [hskip]
            simp [serializeVal, List.cons_append, List.append_assoc]
          have hro := skipWs_serializeString k
            (58 :: 32 :: (serializeVal v0 ++ (serializeObjTail ms0 ++ rest)))
          have hw : wfStr k = true ∧ wfV v0 = true ∧ wfM ms0 = true := by
            have := hwf
            simp only [wfV, wfM, Bool.and_eq_true] at this
            exact ⟨this.1.1.1, this.1.1.2, this.2⟩
          have hf : fuelV v0 + fuelM ms0 + 1 ≤ g := by
            simp only [fuelV, fuelM] at hfuel
            omega
          have hE := ih3 k v0 ms0 (serializeString k ++
              (58 :: 32 :: (serializeVal v0 ++ (serializeObjTail ms0 ++ rest)))) rest
            hw.1 hw.2.1 hw.2.2 hf hrest hro
          simp only [parseVal, hskip']
          norm_num
          rw [hro]
          simp only [serializeString, List.cons_append, List.append_assoc, List.nil_append,
            List.singleton_append]
          norm_num
          simp only [serializeString, List.cons_append, List.append_assoc, List.nil_append,
            List.singleton_append] at hE
          rw [hE]
    · intro v vs s rest hwfv hwfl hfuel hrest hskip
      have hf1 : fuelV v ≤ g := by omega
      have h1 := ih1 v s (serializeArrTail vs ++ rest) hwfv hf1
        (numSafeP_arrTail vs rest) hskip
      simp only [parseElems, h1, Option.bind_eq_bind, Option.some_bind]
      cases vs with
      | nil =>
        rw [show serializeArrTail [] ++ rest = 93 :: rest from rfl,
          skipWs_cons_not 93 rest (by decide)]
        rfl
      | cons w ws =>
        have hw : wfV w = true ∧ wfL ws = true := by
          simpa [wfL, Bool.and_eq_true] using hwfl
        have hf2 : fuelV w + fuelL ws + 1 ≤ g := by
          simp only [fuelL] at hfuel
          omega
        have hsk2 : skipWs (32 :: (serializeVal w ++ (serializeArrTail ws ++ rest))) =
            serializeVal w ++ (serializeArrTail ws ++ rest) := by
          rw [skipWs_cons32]
          exact skipWs_serializeVal w _
        have hE := ih2 w ws (32 :: (serializeVal w ++ (serializeArrTail ws ++ rest))) rest
          hw.1 hw.2 hf2 hrest hsk2
        rw [show serializeArrTail (w :: ws) ++ rest =
          44 :: 32 :: (serializeVal w ++ (serializeArrTail ws ++ rest)) by
            simp [serializeArrTail, List.cons_append, List.append_assoc]]
        rw [skipWs_cons_not 44 _ (by decide)]
        simp only [hE, Option.bind_eq_bind, Option.some_bind]
        rfl
    · intro k v ms s rest hwfk hwfv hwfm hfuel hrest hskip
      have hskip' : skipWs s = 34 :: ((k.map escapeChar).flatten ++
          34 :: (58 :: 32 :: (serializeVal v ++ (serializeObjTail ms ++ rest)))) := by
        rw [hskip]
        simp [serializeString, List.cons_append, List.append_assoc]
      simp only [parseMembers, hskip']
      rw [parseStringBody_complete k _ hwfk]
      simp only [Option.bind_eq_bind, Option.some_bind]
      rw [skipWs_cons_not 58 _ (by decide)]
      have hf1 : fuelV v ≤ g := by omega
      have hsk2 : skipWs (32 :: (serializeVal v ++ (serializeObjTail ms ++ rest))) =
          serializeVal v ++ (serializeObjTail ms ++ rest) := by
        rw [skipWs_cons32]
        exact skipWs_serializeVal v _
      have h1 := ih1 v (32 :: (serializeVal v ++ (serializeObjTail ms ++ rest)))
        (serializeObjTail ms ++ rest) hwfv hf1 (numSafeP_objTail ms rest) hsk2
      simp only [h1, Option.bind_eq_bind, Option.some_bind]
      cases ms with
      | nil =>
        rw [show serializeObjTail [] ++ rest = 125 :: rest from rfl,
          skipWs_cons_not 125 rest (by decide)]
        rfl
      | cons kv2 ms2 =>
        obtain ⟨k2, v2⟩ := kv2
        have hw : wfStr k2 = true ∧ wfV v2 = true ∧ wfM ms2 = true := by
          simp only [wfM, Bool.and_eq_true] at hwfm
          exact ⟨hwfm.1.1.1, hwfm.1.1.2, hwfm.2⟩
        have hf2 : fuelV v2 + fuelM ms2 + 1 ≤ g := by
          simp only [fuelM] at hfuel
          omega
        have hsk3 : skipWs (32 :: (serializeString k2 ++
            (58 :: 32 :: (serializeVal v2 ++ (serializeObjTail ms2 ++ rest))))) =
            serializeString k2 ++
              (58 :: 32 :: (serializeVal v2 ++ (serializeObjTail ms2 ++ rest))) := by
          rw [skipWs_cons32]
          exact skipWs_serializeString k2 _
        have hE := ih3 k2 v2 ms2 (32 :: (serializeString k2 ++
            (58 :: 32 :: (serializeVal v2 ++ (serializeObjTail ms2 ++ rest))))) rest
          hw.1 hw.2.1 hw.2.2 hf2 hrest hsk3
        rw [show serializeObjTail ((k2, v2) :: ms2) ++ rest =
          44 :: 32 :: (serializeString k2 ++
            (58 :: 32 :: (serializeVal v2 ++ (serializeObjTail ms2 ++ rest)))) by
            simp [serializeObjTail, List.cons_append, List.append_assoc]]
        rw [skipWs_cons_not 44 _ (by decide)]
        simp only [hE, Option.bind_eq_bind, Option.some_bind]
        rfl

/-- Helper: reading back a serialized well-formed document yields the
document (the fuel `json_loads` uses, the input length plus one, suffices by
the fuel bound). -/
theorem json_loads_serializeVal (v : Json) (hwf : wfV v = true) :
    json_loads (serializeVal v) = some v := by
  have h0 := skipWs_serializeVal v []
  rw [List.append_nil] at h0
  have hP := (parse_serialize_all ((serializeVal v).length + 1)).1 v (serializeVal v) []
    hwf (by have := fuelV_le v; omega) (by intro c hc; simp at hc)
    (by rw [List.append_nil]; exact h0)
  unfold json_loads
  rw [hP]
  rfl

/-- Helper: decoding inverts encoding on well-formed payloads. -/
theorem decode_encode_qris (p : Json) (hwf : wfV p = true) :
    decode_qris_payload (encode_qris_payload p) = some p := by
  have hascii := serializeVal_ascii p
  unfold encode_qris_payload decode_qris_payload
  rw [utf8Encode_ascii _ hascii]
  rw [b64_roundtrip _ (fun b hb => by have := hascii b hb; omega)]
  simp only [utf8Decode_ascii _ hascii]
  exact json_loads_serializeVal p hwf

/-- C9 (counterexample): the round trip is not the identity on every
JSON-serializable payload dictionary. For the dictionary whose only value is
the two-character string of the code points U+D800 U+DC00 (an adjacent
surrogate pair, expressible in a Python `str`), `json.dumps` emits the two
consecutive backslash-u escapes of the pair and the reader of `json.loads`
recombines them into the single code point U+10000, so decoding the encoded
token yields a different dictionary. -/
theorem qris_roundtrip_counterexample :
    decode_qris_payload (encode_qris_payload (Json.obj [([115], .str [55296, 56320])])) =
      some (Json.obj [([115], .str [65536])]) ∧
    decode_qris_payload (encode_qris_payload (Json.obj [([115], .str [55296, 56320])])) ≠
      some (Json.obj [([115], .str [55296, 56320])]) := by
  have h1 : decode_qris_payload (encode_qris_payload
      (Json.obj [([115], .str [55296, 56320])])) =
      some (Json.obj [([115], .str [65536])]) := by rfl
  refine ⟨h1, ?_⟩
  rw [h1]
  simp

/-- C9 (amended): the QRIS token encoding is reversible for every payload
dictionary whose strings consist of Unicode scalar values (no surrogate code
points) and whose keys are distinct, with numbers modelled as integers:
decoding the encoded payload returns the payload, and every character of the
encoded token is URL-safe (base64url alphabet or padding). -/
theorem qris_token_roundtrip (p : Json) (hwf : wfV p = true) :
    decode_qris_payload (encode_qris_payload p) = some p ∧
    ∀ c ∈ encode_qris_payload p, isB64UrlChar c = true :=
  ⟨decode_encode_qris p hwf, fun c hc =>
    b64_encode_chars (utf8Encode (serializeVal p)) c hc⟩

/-- C9 witness: the round trip holds at the concrete issuance payload
(amount 50000, currency IDR, merchant Warung X). -/
theorem qris_token_roundtrip_witness :
    decode_qris_payload (encode_qris_payload issuancePayload) = some issuancePayload ∧
    ∀ c ∈ encode_qris_payload issuancePayload, isB64UrlChar c = true :=
  qris_token_roundtrip issuancePayload (by rfl)

end DemoBank
